import Mathlib

/-!
Verification development for the coach-directory extraction engine
(`upload-all-coaches.py`): a shallow embedding of the phone normalizer,
area-code detector, name/title disambiguator, three-pass extraction
cascade, post-processor, sport classifier and report validator, together
with theorems settling the specification claims.

Strings are modelled as `List Char`; each Python regular expression used
by the source is translated into an explicit matcher implementing that
pattern's leftmost / greedy / lazy semantics.
-/

namespace RMC

abbrev Str := List Char

def str (s : String) : Str := s.data

/-- ASCII lower-casing, as performed by Python `str.lower` on the
character repertoire this program manipulates. -/
def lowerC (c : Char) : Char :=
  if 65 ≤ c.toNat ∧ c.toNat ≤ 90 then Char.ofNat (c.toNat + 32) else c

/-- ASCII upper-casing (Python `str.upper` on a single character). -/
def upperC (c : Char) : Char :=
  if 97 ≤ c.toNat ∧ c.toNat ≤ 122 then Char.ofNat (c.toNat - 32) else c

def lowerL (s : Str) : Str := s.map lowerC

def upperL (s : Str) : Str := s.map upperC

/-- Python `str.capitalize`: first character upper-cased, rest lower-cased. -/
def capitalizeP : Str → Str
  | [] => []
  | c :: cs => upperC c :: lowerL cs

def isDigitC (c : Char) : Bool := 48 ≤ c.toNat ∧ c.toNat ≤ 57

def isUpperAlphaC (c : Char) : Bool := 65 ≤ c.toNat ∧ c.toNat ≤ 90

def isLowerAlphaC (c : Char) : Bool := 97 ≤ c.toNat ∧ c.toNat ≤ 122

def isAlphaC (c : Char) : Bool := isUpperAlphaC c || isLowerAlphaC c

/-- Python regex `\w` (ASCII mode as used on this data). -/
def isWordC (c : Char) : Bool := isAlphaC c || isDigitC c || c.toNat = 95

/-- Python regex `\s` / `str.strip` whitespace. -/
def isSpaceC (c : Char) : Bool :=
  c.toNat = 32 ∨ c.toNat = 9 ∨ c.toNat = 10 ∨ c.toNat = 13 ∨ c.toNat = 11 ∨ c.toNat = 12

/-- ASCII apostrophe (written via its code point). -/
def apoC : Char := Char.ofNat 39

/-- Typographic apostrophe U+2019. -/
def rApoC : Char := Char.ofNat 8217

def emDash : Char := Char.ofNat 8212

def enDash : Char := Char.ofNat 8211

/-- Python `str.strip()` (no arguments): strip whitespace at both ends. -/
def pyStrip (s : Str) : Str :=
  ((s.dropWhile isSpaceC).reverse.dropWhile isSpaceC).reverse

/-- Python `str.lstrip(cs)`. -/
def pyLStripSet (cs : Str) (s : Str) : Str := s.dropWhile (fun c => cs.contains c)

/-- Python `str.rstrip(cs)`. -/
def pyRStripSet (cs : Str) (s : Str) : Str :=
  (s.reverse.dropWhile (fun c => cs.contains c)).reverse

/-- Python `str.strip(cs)`. -/
def pyStripSet (cs : Str) (s : Str) : Str := pyRStripSet cs (pyLStripSet cs s)

/-- `a` is a prefix of `b` (boolean). -/
def isPrefB : Str → Str → Bool
  | [], _ => true
  | _ :: _, [] => false
  | a :: as, b :: bs => a = b && isPrefB as bs

/-- `a` occurs as a contiguous substring of `b` (Python `a in b`). -/
def isSubB (a : Str) : Str → Bool
  | [] => isPrefB a []
  | b :: bs => isPrefB a (b :: bs) || isSubB a bs

/-- Python `b.endswith(a)`. -/
def endsWithB (b a : Str) : Bool := isPrefB a.reverse b.reverse

/-- Case-insensitive substring test (`a.lower() in b.lower()`). -/
def isSubCI (a b : Str) : Bool := isSubB (lowerL a) (lowerL b)

/-- Python `str.splitlines` restricted to newline-separated text. -/
def splitLinesGo : Nat → Str → Str → List Str
  | 0, _, _ => []
  | _ + 1, acc, [] => if acc = [] then [] else [acc.reverse]
  | n + 1, acc, c :: cs =>
    if c = '\n' then acc.reverse :: splitLinesGo n [] cs
    else splitLinesGo n (c :: acc) cs

def splitLinesPy (s : Str) : List Str := splitLinesGo (s.length + 1) [] s

/-- Python `str.split()` (split on whitespace runs, dropping empties). -/
def splitWsGo : Nat → Str → List Str
  | 0, _ => []
  | _ + 1, [] => []
  | n + 1, c :: cs =>
    if isSpaceC c then splitWsGo n cs
    else (c :: cs.takeWhile (fun d => !isSpaceC d)) :: splitWsGo n (cs.dropWhile (fun d => !isSpaceC d))

def splitWs (s : Str) : List Str := splitWsGo (s.length + 1) s

/-- Join a list of strings with single spaces (Python `" ".join`). -/
def joinSpace : List Str → Str
  | [] => []
  | [x] => x
  | x :: xs => x ++ ' ' :: joinSpace xs

/-- Text before the first occurrence of `sep`, i.e. `s.split(sep, 1)[0]`
for a `sep` known to occur in `s` (whole string otherwise). -/
def splitOnceBeforeGo : Nat → Str → Str → Str → Str
  | 0, _, _, _ => []
  | _ + 1, _, acc, [] => acc.reverse
  | n + 1, sep, acc, c :: cs =>
    if isPrefB sep (c :: cs) then acc.reverse
    else splitOnceBeforeGo n sep (c :: acc) cs

def splitOnceBefore (sep s : Str) : Str := splitOnceBeforeGo (s.length + 1) sep [] s

/-- Text before the first `'@'` (Python `email.split("@", 1)[0]`). -/
def localPart (email : Str) : Str := email.takeWhile (fun c => c ≠ '@')

end RMC

namespace RMC

/-- Try an anchored matcher on each successive suffix of the input (the
leftmost-match rule of `re.search`).  The matcher also receives the
character immediately before the suffix, for word-boundary tests, and the
scan returns the start index together with the matcher's result. -/
def scanFrom (f : Option Char → Str → Option α) : Option Char → Nat → Str → Option (Nat × α)
  | prev, i, [] =>
    match f prev [] with
    | some r => some (i, r)
    | none => none
  | prev, i, c :: cs =>
    match f prev (c :: cs) with
    | some r => some (i, r)
    | none => scanFrom f (some c) (i + 1) cs

def searchPat (f : Option Char → Str → Option α) (s : Str) : Option (Nat × α) :=
  scanFrom f none 0 s

/-- Largest `k < n` with `p k`. -/
def findLargestBelow (p : Nat → Bool) : Nat → Option Nat
  | 0 => none
  | n + 1 => if p n then some n else findLargestBelow p n

/-- Characters of the regex class `[\w\.-]`. -/
def emailClass (c : Char) : Bool := isWordC c || c = '.' || c = '-'

/-- Anchored match of `[\w\.-]+@[\w\.-]+\.\w+` at the start of `s`
(greedy with backtracking, exactly as the Python pattern behaves):
returns the matched text. -/
def matchEmailAt (s : Str) : Option Str :=
  let A := s.takeWhile emailClass
  if A = [] then none
  else
    match s.drop A.length with
    | '@' :: rest2 =>
      let R := rest2.takeWhile emailClass
      match findLargestBelow
          (fun k => 1 ≤ k && R.getD k ' ' = '.' && isWordC (R.getD (k + 1) ' ')) R.length with
      | some k =>
        let wrun := (R.drop (k + 1)).takeWhile isWordC
        some (A ++ '@' :: (R.take k ++ '.' :: wrun))
      | none => none
    | _ => none

/-- `re.search(r'[\w\.-]+@[\w\.-]+\.\w+', line)`: start index and text of
the leftmost email match. -/
def findEmailMatch (line : Str) : Option (Nat × Str) :=
  searchPat (fun _ s => matchEmailAt s) line

/-- Consume exactly `n` digits. -/
def takeDigits : Nat → Str → Option Str
  | 0, s => some s
  | _ + 1, [] => none
  | n + 1, c :: cs => if isDigitC c then takeDigits n cs else none

def takeLit (c : Char) : Str → Option Str
  | [] => none
  | d :: ds => if d = c then some ds else none

/-- Consume `\s*`. -/
def takeWs0 (s : Str) : Option Str := some (s.dropWhile isSpaceC)

/-- Consume `\s+`. -/
def takeWs1 : Str → Option Str
  | [] => none
  | c :: cs => if isSpaceC c then some (cs.dropWhile isSpaceC) else none

/-- Matched length at this position, given the residue after consuming. -/
def lenOf (s : Str) (rest : Option Str) : Option Nat :=
  rest.map (fun r => s.length - r.length)

/-- `\(\d{3}\)\s*\d{3}-\d{4}` anchored. -/
def phonePat1 (_ : Option Char) (s : Str) : Option Nat :=
  lenOf s ((takeLit '(' s).bind (takeDigits 3) |>.bind (takeLit ')') |>.bind takeWs0
    |>.bind (takeDigits 3) |>.bind (takeLit '-') |>.bind (takeDigits 4))

/-- `\(\d{3}\)\s*\d{3}\.\d{4}` anchored. -/
def phonePat2 (_ : Option Char) (s : Str) : Option Nat :=
  lenOf s ((takeLit '(' s).bind (takeDigits 3) |>.bind (takeLit ')') |>.bind takeWs0
    |>.bind (takeDigits 3) |>.bind (takeLit '.') |>.bind (takeDigits 4))

/-- `\d{3}-\d{3}-\d{4}` anchored. -/
def phonePat3 (_ : Option Char) (s : Str) : Option Nat :=
  lenOf s ((takeDigits 3 s).bind (takeLit '-') |>.bind (takeDigits 3) |>.bind (takeLit '-')
    |>.bind (takeDigits 4))

/-- `\d{3}\.\d{3}\.\d{4}` anchored. -/
def phonePat4 (_ : Option Char) (s : Str) : Option Nat :=
  lenOf s ((takeDigits 3 s).bind (takeLit '.') |>.bind (takeDigits 3) |>.bind (takeLit '.')
    |>.bind (takeDigits 4))

/-- `\d{3}\s+\d{3}-\d{4}` anchored. -/
def phonePat5 (_ : Option Char) (s : Str) : Option Nat :=
  lenOf s ((takeDigits 3 s).bind takeWs1 |>.bind (takeDigits 3) |>.bind (takeLit '-')
    |>.bind (takeDigits 4))

/-- `\d{3}-\d{4}` anchored. -/
def phonePat6 (_ : Option Char) (s : Str) : Option Nat :=
  lenOf s ((takeDigits 3 s).bind (takeLit '-') |>.bind (takeDigits 4))

/-- `\d{3}\.\d{4}` anchored. -/
def phonePat7 (_ : Option Char) (s : Str) : Option Nat :=
  lenOf s ((takeDigits 3 s).bind (takeLit '.') |>.bind (takeDigits 4))

def noWordB : Option Char → Bool
  | none => true
  | some c => !isWordC c

/-- `\b\d{7}\b` anchored (uses the preceding character for the left
boundary). -/
def phonePat8 (prev : Option Char) (s : Str) : Option Nat :=
  if noWordB prev then
    match takeDigits 7 s with
    | some rest => if noWordB rest.head? then some (s.length - rest.length) else none
    | none => none
  else none

/-- Search one phone pattern over the line, returning the matched text. -/
def searchPhonePat (f : Option Char → Str → Option Nat) (s : Str) : Option Str :=
  (searchPat f s).map (fun p => ((s.drop p.1).take p.2))

/-- The ordered phone-pattern list of `extract_and_format_phone`. -/
def findPhoneRaw (s : Str) : Option Str :=
  searchPhonePat phonePat1 s <|> searchPhonePat phonePat2 s <|> searchPhonePat phonePat3 s <|>
  searchPhonePat phonePat4 s <|> searchPhonePat phonePat5 s <|> searchPhonePat phonePat6 s <|>
  searchPhonePat phonePat7 s <|> searchPhonePat phonePat8 s

/-- `re.match(r'^\d{3}-\d{4}$', phone)`. -/
def shape7dash (s : Str) : Bool :=
  ((takeDigits 3 s).bind (takeLit '-') |>.bind (takeDigits 4)) = some []

/-- `re.match(r'^\d{3}\.\d{4}$', phone)`. -/
def shape7dot (s : Str) : Bool :=
  ((takeDigits 3 s).bind (takeLit '.') |>.bind (takeDigits 4)) = some []

/-- `re.match(r'^\d{7}$', phone)`. -/
def shape7bare (s : Str) : Bool := takeDigits 7 s = some []

/-- `re.match(r'^\d{3}-\d{3}-\d{4}$', phone)`. -/
def shape334dash (s : Str) : Bool :=
  ((takeDigits 3 s).bind (takeLit '-') |>.bind (takeDigits 3) |>.bind (takeLit '-')
    |>.bind (takeDigits 4)) = some []

/-- `re.match(r'^\d{3}\s+\d{3}-\d{4}$', phone)`. -/
def shapeSpace334 (s : Str) : Bool :=
  ((takeDigits 3 s).bind takeWs1 |>.bind (takeDigits 3) |>.bind (takeLit '-')
    |>.bind (takeDigits 4)) = some []

/-- `re.match(r'^\(\d{3}\)', phone)`. -/
def shapeParen3 (s : Str) : Bool :=
  (((takeLit '(' s).bind (takeDigits 3)).bind (takeLit ')')).isSome

def areaTruthy : Option Str → Bool
  | some a => a ≠ []
  | none => false

/-- The formatting branch of `extract_and_format_phone`, applied to the
matched (stripped) phone text. -/
def formatMatchedPhone (phone : Str) (area : Option Str) : Str :=
  if areaTruthy area ∧ (shape7dash phone ∨ shape7dot phone ∨ shape7bare phone) then
    let a := area.getD []
    let ph := if shape7bare phone then phone.take 3 ++ '-' :: phone.drop 3 else phone
    '(' :: a ++ ')' :: ' ' :: ph
  else if shape334dash phone then
    '(' :: phone.take 3 ++ ')' :: ' ' :: phone.drop 4
  else if shapeSpace334 phone then
    let parts := splitWs phone
    '(' :: parts.getD 0 [] ++ ')' :: ' ' :: parts.getD 1 []
  else if shapeParen3 phone then phone
  else phone

/-- `extract_and_format_phone(line, area_code)`. -/
def extract_and_format_phone (line : Str) (area : Option Str) : Option Str :=
  (findPhoneRaw line).map (fun m => formatMatchedPhone (pyStrip m) area)

end RMC

namespace RMC

/-- Case-insensitive literal-prefix consumer. -/
def takePrefCI : Str → Str → Option Str
  | [], s => some s
  | _ :: _, [] => none
  | p :: ps, c :: cs => if lowerC c = lowerC p then takePrefCI ps cs else none

/-- Python `"\n".join(lines)`. -/
def joinNL : List Str → Str
  | [] => []
  | [x] => x
  | x :: xs => x ++ '\n' :: joinNL xs

/-- `re.search(r"coaching\s+staff", s, re.IGNORECASE)` as a boolean. -/
def hasCoachingStaff (s : Str) : Bool :=
  (searchPat (fun _ t =>
    (((takePrefCI (str "coaching") t).bind takeWs1).bind (takePrefCI (str "staff"))).map
      (fun _ => ())) s).isSome

/-- `re.search(r"^coaches\b", s, re.IGNORECASE)` (no MULTILINE: anchored at
the very start). -/
def startsCoachesB (s : Str) : Bool :=
  match takePrefCI (str "coaches") s with
  | some rest => noWordB rest.head?
  | none => false

/-- A validator block line that marks a header-like provenance entry:
`ln.strip().lower().startswith('original line:')` together with
`re.search(r"coaching\s+staff|^coaches\b", ln, re.IGNORECASE)`. -/
def headerProvLine (ln : Str) : Bool :=
  isPrefB (str "original line:") (lowerL (pyStrip ln)) &&
    (hasCoachingStaff ln || startsCoachesB ln)

/-- `re.match(r"^\d+\.\s+\S+", ln)`. -/
def numberedNameShape (ln : Str) : Bool :=
  let d := ln.takeWhile isDigitC
  d ≠ [] &&
    (match ln.drop d.length with
     | '.' :: rest =>
       match takeWs1 rest with
       | some rest2 => rest2 ≠ []
       | none => false
     | _ => false)

/-- Remainder of `ln.split(maxsplit=1)` (empty when there is no second
token). -/
def splitMax1Rest (ln : Str) : Str :=
  ((ln.dropWhile isSpaceC).dropWhile (fun c => !isSpaceC c)).dropWhile isSpaceC

/-- `ln.split(":", 1)[1].strip() if ":" in ln else ""`. -/
def afterColonStripped (ln : Str) : Str :=
  if ln.contains ':' then pyStrip ((ln.dropWhile (fun c => c ≠ ':')).drop 1) else []

/-- One step of the field scan in `validate_block` (the `if`/`elif`
ladder over a block line). -/
def blockFieldStep (f : Bool × Bool × Bool × Bool) (ln : Str) : Bool × Bool × Bool × Bool :=
  let (nameOk, emailOk, usernameOk, titleOk) := f
  if numberedNameShape ln then
    (nameOk || pyStrip (splitMax1Rest ln) ≠ [], emailOk, usernameOk, titleOk)
  else if isPrefB (str "email:") (lowerL (pyStrip ln)) then
    let v := afterColonStripped ln
    (nameOk, emailOk || (v ≠ [] && v.contains '@'), usernameOk, titleOk)
  else if isPrefB (str "username:") (lowerL (pyStrip ln)) then
    (nameOk, emailOk, usernameOk || afterColonStripped ln ≠ [], titleOk)
  else if isPrefB (str "title:") (lowerL (pyStrip ln)) then
    (nameOk, emailOk, usernameOk, titleOk || afterColonStripped ln ≠ [])
  else f

def blockFields (block : List Str) : Bool × Bool × Bool × Bool :=
  block.foldl blockFieldStep (false, false, false, false)

def blockNameOk (block : List Str) : Bool := (blockFields block).1

def blockUsernameOk (block : List Str) : Bool := (blockFields block).2.2.1

def blockTitleOk (block : List Str) : Bool := (blockFields block).2.2.2

/-- A block is skipped by `validate_block` when it carries the
non-uploadable marker or a header-like provenance line. -/
def blockSkipped (block : List Str) : Bool :=
  isSubB (str "will NOT be uploaded") (joinNL block) || block.any headerProvLine

/-- `validate_block`: `true` when the block is counted as a validation
issue. -/
def blockIssue (block : List Str) : Bool :=
  if block = [] then false
  else if blockSkipped block then false
  else !(blockNameOk block && blockUsernameOk block && blockTitleOk block)

/-- Walk the parsed-entries section, splitting on blank lines and
counting issues (`validate_txt_file`'s main loop). -/
def countIssuesGo : List Str → List Str → Nat
  | cur, [] => if blockIssue cur.reverse then 1 else 0
  | cur, ln :: rest =>
    if pyStrip ln = [] then
      (if blockIssue cur.reverse then 1 else 0) + countIssuesGo [] rest
    else countIssuesGo (ln :: cur) rest

/-- Index of the `PARSED ENTRIES:` header line. -/
def findParsedIdx : Nat → List Str → Option Nat
  | _, [] => none
  | i, ln :: rest =>
    if pyStrip ln = str "PARSED ENTRIES:" then some i else findParsedIdx (i + 1) rest

/-- Index of the raw-lines header, restricted to lines after the
parsed-entries header (the single loop of `validate_txt_file` only tests
this once `start_idx` is set). -/
def findRawIdx (pIdx : Nat) : Nat → List Str → Option Nat
  | _, [] => none
  | i, ln :: rest =>
    if pIdx < i ∧ pyStrip ln = str "RAW LINES WITH 'COACH' KEYWORD:" then some i
    else findRawIdx pIdx (i + 1) rest

/-- `validate_txt_file` on the report's lines: `(is_valid, issues)`. -/
def validate_txt_lines (lines : List Str) : Bool × Nat :=
  match findParsedIdx 0 lines with
  | none => (false, 1)
  | some p =>
    let s := if p + 1 < lines.length then p + 2 else p + 1
    let e := match findRawIdx p 0 lines with
      | some i => i - 1
      | none => lines.length
    let issues := countIssuesGo [] ((lines.drop s).take (e - s))
    (issues = 0, issues)

/-- A document's detected organization context. -/
structure PdfInfo where
  university : Str
  organization : Str
  location : Str
  source : Str
  state : Str
deriving Repr, DecidableEq

def emptyPdfInfo : PdfInfo := ⟨[], [], [], [], []⟩

/-- The sport-section branch of `map_to_coach_profile` (its `if`/`elif`
chain over the lowered section label). -/
def sectionSports (sect : Str) : List Str :=
  if isSubB (str "basketball") sect then
    (if isSubB (str "men") sect then [str "Basketball (Men)"]
     else if isSubB (str "women") sect then [str "Basketball (Women)"]
     else [str "Basketball"])
  else if isSubB (str "soccer") sect then
    (if isSubB (str "men") sect then [str "Soccer (Men)"]
     else if isSubB (str "women") sect then [str "Soccer (Women)"]
     else [str "Soccer"])
  else if isSubB (str "football") sect then [str "Football"]
  else if isSubB (str "baseball") sect then [str "Baseball"]
  else if isSubB (str "softball") sect then [str "Softball"]
  else if isSubB (str "swimming") sect then [str "Swimming"]
  else if isSubB (str "track") sect || isSubB (str "field") sect then [str "Track & Field"]
  else if isSubB (str "cross country") sect then [str "Cross Country"]
  else if isSubB (str "volleyball") sect then [str "Volleyball"]
  else if isSubB (str "lacrosse") sect then
    (if isSubB (str "women") sect then [str "Lacrosse (Women)"] else [str "Lacrosse"])
  else if isSubB (str "field hockey") sect then [str "Field Hockey"]
  else []

/-- The free-text keyword table of `map_to_coach_profile`, in insertion
order. -/
def sportKeywordTable : List (Str × Str) :=
  [ (str "soccer", str "Soccer"), (str "football", str "Soccer"),
    (str "men's soccer", str "Soccer"), (str "mens soccer", str "Soccer"),
    (str "goalkeeper", str "Soccer"), (str "goalie", str "Soccer"),
    (str "midfielder", str "Soccer"), (str "defender", str "Soccer"),
    (str "forward", str "Soccer"), (str "striker", str "Soccer"),
    (str "baseball", str "Baseball"), (str "basketball", str "Basketball"),
    (str "tennis", str "Tennis"), (str "swimming", str "Swimming"),
    (str "track", str "Track & Field"), (str "field", str "Track & Field"),
    (str "cross country", str "Cross Country"), (str "volleyball", str "Volleyball"),
    (str "golf", str "Golf"), (str "wrestling", str "Wrestling"),
    (str "lacrosse", str "Lacrosse"), (str "softball", str "Softball"),
    (str "hockey", str "Hockey"), (str "rowing", str "Rowing"),
    (str "strength", str "Strength & Conditioning"),
    (str "conditioning", str "Strength & Conditioning") ]

def keywordScan (roleText : Str) : List Str :=
  sportKeywordTable.foldl
    (fun sports kv =>
      if isSubB kv.1 roleText && !sports.contains kv.2 then sports ++ [kv.2] else sports)
    []

/-- The sports-determination portion of `map_to_coach_profile`. -/
def profileSports (sport_section : Option Str) (full_line : Str) (info : Option PdfInfo) :
    List Str :=
  let sect := match sport_section with
    | some s => lowerL s
    | none => []
  let roleText := lowerL full_line
  let sports := if sect ≠ [] then sectionSports sect else []
  let sports := if sports = [] then keywordScan roleText else sports
  let defaultSport : Option Str :=
    match info with
    | some pi =>
      if isSubB (str "bryant") (lowerL pi.university) && isSubB (str "soccer") (lowerL pi.source)
      then some (str "Soccer")
      else if isSubB (str "rowan") (lowerL pi.university) then none
      else some (str "Soccer")
    | none => some (str "Soccer")
  if sports = [] then
    match defaultSport with
    | some d => [d]
    | none => [str "General Athletics"]
  else sports

end RMC

namespace RMC

/-- Global `re.sub(pattern, repl, s)`: repeatedly replace the leftmost
match (the matcher returns the match length, always positive) and resume
scanning right after it, with the boundary context taken from the
original text. -/
def subAllBGo (m : Option Char → Str → Option Nat) (repl : Str) :
    Nat → Option Char → Str → Str
  | 0, _, _ => []
  | _ + 1, _, [] => []
  | n + 1, prev, c :: cs =>
    match m prev (c :: cs) with
    | some (k + 1) =>
      repl ++ subAllBGo m repl n ((c :: cs).get? k) ((c :: cs).drop (k + 1))
    | _ => c :: subAllBGo m repl n (some c) cs

def subAllB (m : Option Char → Str → Option Nat) (repl : Str) (s : Str) : Str :=
  subAllBGo m repl (s.length + 1) none s

/-- Consume `n` digits, returning them together with the residue. -/
def grabDigits : Nat → Str → Option (Str × Str)
  | 0, s => some ([], s)
  | _ + 1, [] => none
  | n + 1, c :: cs =>
    if isDigitC c then (grabDigits n cs).map (fun p => (c :: p.1, p.2)) else none

/-- Case-insensitive literal whose first and last characters are word
characters, matched with `\b` on both sides. -/
def wordBoundedPrefCI (lit : Str) (prev : Option Char) (t : Str) : Option Str :=
  if noWordB prev then
    match takePrefCI lit t with
    | some rest => if noWordB rest.head? then some rest else none
    | none => none
  else none

/-- The ordered area-code patterns of `parse_pdf`; each matcher returns
the captured three digits. -/
def areaPat1 (s : Str) : Option Str :=
  ((takePrefCI (str "Area Code (") s).bind (grabDigits 3)).bind
    (fun p => (takeLit ')' p.2).map (fun _ => p.1))

def areaPat2 (s : Str) : Option Str :=
  ((takePrefCI (str "Area Code: (") s).bind (grabDigits 3)).bind
    (fun p => (takeLit ')' p.2).map (fun _ => p.1))

def areaPat3 (s : Str) : Option Str :=
  ((takePrefCI (str "Area Code ") s).bind (grabDigits 3)).map (·.1)

def areaPat4 (s : Str) : Option Str :=
  ((takePrefCI (str "Area Code: ") s).bind (grabDigits 3)).map (·.1)

def areaPat5 (s : Str) : Option Str :=
  (((takeLit '(' s).bind (grabDigits 3)).bind
    (fun p => (takePrefCI (str ") area code") p.2).map (fun _ => p.1)))

def detectAreaCode (text : Str) : Option Str :=
  ((searchPat (fun _ => areaPat1) text).map (·.2)) <|>
  ((searchPat (fun _ => areaPat2) text).map (·.2)) <|>
  ((searchPat (fun _ => areaPat3) text).map (·.2)) <|>
  ((searchPat (fun _ => areaPat4) text).map (·.2)) <|>
  ((searchPat (fun _ => areaPat5) text).map (·.2))

/-- Characters of `[A-Z\s&]` (the sport-section header class). -/
def headerClassC (c : Char) : Bool := isUpperAlphaC c || isSpaceC c || c = '&'

/-- `re.match(r'^([A-Z\s&]+(?:\([^)]+\))?)$', line_stripped)`. -/
def headerShape (s : Str) : Bool :=
  let A := s.takeWhile headerClassC
  A ≠ [] &&
    (let rest := s.drop A.length
     rest = [] ||
       (match rest with
        | '(' :: r2 =>
          let B := r2.takeWhile (fun c => c ≠ ')')
          B ≠ [] && r2.drop B.length = [')']
        | _ => false))

def sportHeaderKeywords : List Str :=
  [str "baseball", str "basketball", str "soccer", str "football", str "swimming",
   str "volleyball", str "lacrosse", str "track", str "field hockey", str "cross country",
   str "softball"]

/-- The sport-section header test of the single-line pass. -/
def isSportHeader (stripped : Str) : Bool :=
  headerShape stripped && sportHeaderKeywords.any (fun k => isSubB k (lowerL stripped))

/-- Anchored match of `\b[\w\.-]+@[\w\.-]+\.[A-Za-z]{2,}\b` (the e-mail
shape removed inside `extract_coach_title`), returning the match
length. -/
def matchEmailStrictAt (prev : Option Char) (s : Str) : Option Nat :=
  let A := s.takeWhile emailClass
  match A.head? with
  | none => none
  | some c0 =>
    if (noWordB prev) = isWordC c0 then
      match s.drop A.length with
      | '@' :: rest2 =>
        let R := rest2.takeWhile emailClass
        match findLargestBelow
            (fun k =>
              1 ≤ k && R.getD k ' ' = '.' &&
                (let L := (rest2.drop (k + 1)).takeWhile isAlphaC
                 2 ≤ L.length && noWordB ((rest2.drop (k + 1 + L.length)).head?)))
            R.length with
        | some k =>
          let L := (rest2.drop (k + 1)).takeWhile isAlphaC
          some (A.length + 1 + k + 1 + L.length)
        | none => none
      | _ => none
    else none

/-- `re.sub(r"\b[\w\.-]+@[\w\.-]+\.[A-Za-z]{2,}\b", "", s)`. -/
def removeEmailsB (s : Str) : Str := subAllB matchEmailStrictAt [] s

/-- Characters of `[A-Za-z\s/&-]` (also `[ A-Za-z\s/&-]`). -/
def titleClass (c : Char) : Bool := isAlphaC c || isSpaceC c || c = '/' || c = '&' || c = '-'

/-- `head\s+coach[ A-Za-z\s/&-]*` anchored: match length. -/
def titlePat1At (s : Str) : Option Nat :=
  (((takePrefCI (str "head") s).bind takeWs1).bind (takePrefCI (str "coach"))).map
    (fun rest => s.length - rest.length + (rest.takeWhile titleClass).length)

/-- `associate\s+(head\s+)?coach[ A-Za-z\s/&-]*` anchored (the optional
group is greedy). -/
def titlePat2At (s : Str) : Option Nat :=
  ((takePrefCI (str "associate") s).bind takeWs1).bind (fun r =>
    let afterCoach : Option Str :=
      match ((takePrefCI (str "head") r).bind takeWs1).bind (takePrefCI (str "coach")) with
      | some rest => some rest
      | none => takePrefCI (str "coach") r
    afterCoach.map (fun rest => s.length - rest.length + (rest.takeWhile titleClass).length))

/-- `assistant\s+(head\s+)?coach[ A-Za-z\s/&-]*` anchored. -/
def titlePat3At (s : Str) : Option Nat :=
  ((takePrefCI (str "assistant") s).bind takeWs1).bind (fun r =>
    let afterCoach : Option Str :=
      match ((takePrefCI (str "head") r).bind takeWs1).bind (takePrefCI (str "coach")) with
      | some rest => some rest
      | none => takePrefCI (str "coach") r
    afterCoach.map (fun rest => s.length - rest.length + (rest.takeWhile titleClass).length))

/-- Smallest position reachable through `classP` characters at which a
word-bounded, case-insensitive `coach` starts (the lazy prefix of title
pattern 4). -/
def findCoachLazy : Option Char → Nat → Str → Option Nat
  | prev, j, t =>
    match wordBoundedPrefCI (str "coach") prev t with
    | some _ => some j
    | none =>
      match t with
      | [] => none
      | c :: cs => if titleClass c then findCoachLazy (some c) (j + 1) cs else none

/-- `[A-Za-z\s/&-]*?\bcoach\b[ A-Za-z\s/&-]*` anchored. -/
def titlePat4At (prev : Option Char) (s : Str) : Option Nat :=
  (findCoachLazy prev 0 s).map
    (fun j => j + 5 + ((s.drop (j + 5)).takeWhile titleClass).length)

/-- `[A-Za-z\s/&-]*coordinator[ A-Za-z\s/&-]*` anchored (greedy prefix:
the furthest reachable `coordinator` wins). -/
def titlePat5At (s : Str) : Option Nat :=
  let run := s.takeWhile titleClass
  match findLargestBelow (fun q => (takePrefCI (str "coordinator") (s.drop q)).isSome)
      (run.length + 1) with
  | some q => some (q + 11 + ((s.drop (q + 11)).takeWhile titleClass).length)
  | none => none

/-- `[A-Z][A-Za-z’'\-]+` under `re.IGNORECASE` (so: a letter followed by
one or more letters / apostrophes / hyphens), returning the residue. -/
def takeNameWord : Str → Option Str
  | [] => none
  | c :: cs =>
    if isAlphaC c then
      let t := cs.takeWhile (fun d => isAlphaC d || d = rApoC || d = apoC || d = '-')
      if t = [] then none else some (cs.drop t.length)
    else none

/-- Up to `n` further `\s+<name word>` groups followed by `\s*$`
(greedy, with backtracking on the count). -/
def coachTrailWords : Nat → Str → Bool
  | 0, r => r.all isSpaceC
  | n + 1, r =>
    (match (takeWs1 r).bind takeNameWord with
     | some r2 => coachTrailWords n r2
     | none => false) ||
    r.all isSpaceC

/-- Anchored match of
`(\bcoach\b)\s+[A-Z][A-Za-z’'\-]+(?:\s+[A-Z][A-Za-z’'\-]+){0,2}\s*$`
(case-insensitive). -/
def coachTrailAt (prev : Option Char) (t : Str) : Option Unit :=
  match wordBoundedPrefCI (str "coach") prev t with
  | some rest =>
    match (takeWs1 rest).bind takeNameWord with
    | some r1 => if coachTrailWords 2 r1 then some () else none
    | none => none
  | none => none

/-- The trailing-personal-name removal inside `extract_coach_title`:
`re.sub(r"(\bcoach\b)\s+[A-Z]...\s*$", r"\1", cand, flags=IGNORECASE)`. -/
def coachTrailNameSub (s : Str) : Str :=
  match searchPat coachTrailAt s with
  | some (p, _) => s.take (p + 5)
  | none => s

/-- `extract_coach_title(s)`. -/
def extract_coach_title (s : Str) : Str :=
  if !isSubB (str "coach") (lowerL s) then []
  else
    let sWo := removeEmailsB s
    match (searchPat (fun _ => titlePat1At) sWo).map (fun p => ((sWo.drop p.1).take p.2)) <|>
          (searchPat (fun _ => titlePat2At) sWo).map (fun p => ((sWo.drop p.1).take p.2)) <|>
          (searchPat (fun _ => titlePat3At) sWo).map (fun p => ((sWo.drop p.1).take p.2)) <|>
          (searchPat titlePat4At sWo).map (fun p => ((sWo.drop p.1).take p.2)) <|>
          (searchPat (fun _ => titlePat5At) sWo).map (fun p => ((sWo.drop p.1).take p.2)) with
    | some cand => pyStrip (coachTrailNameSub (pyStrip cand))
    | none => str "coach"

end RMC

namespace RMC

/-- The token strip-set `",.:;|/()&[]{}-—–"` of `clean_name_tokens`. -/
def tokenStripChars : Str :=
  [',', '.', ':', ';', '|', '/', '(', ')', '&', '[', ']', Char.ofNat 123, Char.ofNat 125,
   '-', emDash, enDash]

/-- The stopword set of `clean_name_tokens` (as a list; only membership
is used). -/
def nameStopwords : List Str :=
  [str "and", str "of", str "the", str "dept", str "department", str "athletics",
   str "athletic", str "recreation", str "business", str "health", str "trainer",
   str "performance", str "strength", str "conditioning", str "manager",
   str "representative", str "advisor", str "associate", str "assistant", str "head",
   str "coach", str "coaching", str "coaches", str "coordinator", str "director",
   str "offensive", str "defensive", str "women", str "women's", str "men", str "men's",
   str "club", str "ext", str "sr", str "jr", str "ii", str "iii", str "iv", str "senior",
   str "junior", str "admin", str "administrative", str "baseball", str "basketball",
   str "soccer", str "football", str "swimming", str "diving", str "volleyball",
   str "lacrosse", str "track", str "cross", str "country", str "cross-country",
   str "field", str "field", str "field-hockey", str "fieldhockey", str "softball",
   str "tennis", str "golf", str "wrestling", str "hockey", str "rowing", str "cheer",
   str "cheerleading", str "stunt", str "esports", str "bowling", str "fencing",
   str "gymnastics", str "rowing", str "staff", str "coachng", str "directory",
   str "university", str "college"]

def roleSubstrings : List Str :=
  [str "coach", str "assistant", str "associate", str "head", str "recruit",
   str "recruiting", str "recruiter", str "coordinator", str "director", str "manager",
   str "strength", str "conditioning", str "athletic", str "operations", str "performance"]

/-- Split on runs of hyphens and slashes with empty pieces dropped (the
`re.split` in `clean_name_tokens`; empty pieces never hit a stopword or
role substring, so dropping them is equivalent). -/
def hyphenSlashPartsGo : Nat → Str → List Str
  | 0, _ => []
  | _ + 1, [] => []
  | n + 1, c :: cs =>
    if c = '-' || c = '/' then hyphenSlashPartsGo n cs
    else (c :: cs.takeWhile (fun d => !(d = '-' || d = '/'))) ::
      hyphenSlashPartsGo n (cs.dropWhile (fun d => !(d = '-' || d = '/')))

def hyphenSlashParts (s : Str) : List Str := hyphenSlashPartsGo (s.length + 1) s

/-- `re.match(r"^[A-Za-z][A-Za-z'’\-]+$", t)`. -/
def nameShapeTok : Str → Bool
  | [] => false
  | c :: rest =>
    isAlphaC c && rest ≠ [] &&
      rest.all (fun d => isAlphaC d || d = apoC || d = rApoC || d = '-')

/-- `clean_name_tokens(name_text)`. -/
def clean_name_tokens (name_text : Str) : Str × Str :=
  let tokens := splitWs (pyStrip name_text)
  let cleaned := tokens.filterMap (fun t =>
    let ts := pyStripSet tokenStripChars t
    if ts = [] then none
    else if ts.any isDigitC then none
    else if ts.contains '@' then none
    else
      let low := lowerL ts
      if nameStopwords.contains low then none
      else if roleSubstrings.any (fun r => isSubB r low) then none
      else if (hyphenSlashParts low).any
          (fun p => nameStopwords.contains p || roleSubstrings.any (fun r => isSubB r p)) then
        none
      else if nameShapeTok ts then some ts else none)
  match cleaned with
  | [] => ([], [])
  | [x] => (x, [])
  | first :: rest =>
    let lastCand := rest.filter (fun t => lowerL t ≠ lowerL first)
    (first, (lastCand.getLast?).getD [])

def roleWordSet : List Str :=
  [str "head", str "assistant", str "associate", str "coach", str "coordinator",
   str "director"]

/-- `sanitize_name(first_name, last_name)`. -/
def sanitize_name (first last : Str) : Str × Str :=
  let fn := pyStrip first
  let ln := pyStrip last
  let ln := if fn ≠ [] ∧ ln ≠ [] ∧ lowerL fn = lowerL ln then [] else ln
  let ln := if roleWordSet.contains (lowerL ln) then [] else ln
  let fn := if roleWordSet.contains (lowerL fn) then [] else fn
  (fn, ln)

/-- Split on runs of `[._-]`, dropping empty pieces (the filtered
`re.split` of `derive_name_from_email`). -/
def splitSepsGo : Nat → Str → List Str
  | 0, _ => []
  | _ + 1, [] => []
  | n + 1, c :: cs =>
    if c = '.' || c = '_' || c = '-' then splitSepsGo n cs
    else (c :: cs.takeWhile (fun d => !(d = '.' || d = '_' || d = '-'))) ::
      splitSepsGo n (cs.dropWhile (fun d => !(d = '.' || d = '_' || d = '-')))

def splitSeps (s : Str) : List Str := splitSepsGo (s.length + 1) s

/-- `re.match(r"^([A-Z][a-z]+)([A-Z][a-z]+)$", token)`. -/
def camelSplit : Str → Option (Str × Str)
  | [] => none
  | c :: rest =>
    if isUpperAlphaC c then
      let r1 := rest.takeWhile isLowerAlphaC
      if r1 = [] then none
      else
        match rest.drop r1.length with
        | d :: rest3 =>
          if isUpperAlphaC d then
            let r2 := rest3.takeWhile isLowerAlphaC
            if r2 ≠ [] ∧ rest3.drop r2.length = [] then some (c :: r1, d :: r2) else none
          else none
        | [] => none
    else none

/-- `derive_name_from_email(email)` (the source indexes `parts[0]`, which
is unreachable for an empty split since matched e-mails have a non-empty
local part; that case is mapped to empty names). -/
def derive_name_from_email (email : Str) : Str × Str :=
  if email = [] ∨ !email.contains '@' then ([], [])
  else
    let lp := localPart email
    match splitSeps lp with
    | [] => ([], [])
    | p :: ps =>
      match ps with
      | q :: _ => if p.length = 1 then (upperL p, capitalizeP q) else (capitalizeP p, capitalizeP q)
      | [] =>
        match camelSplit p with
        | some pr => pr
        | none => (capitalizeP p, [])

/-- `re.sub(r"[^a-z0-9]+", ".", s)` for `build_username_from_name`. -/
def dotifyGo : Nat → Str → Str
  | 0, _ => []
  | _ + 1, [] => []
  | n + 1, c :: cs =>
    if isLowerAlphaC c || isDigitC c then c :: dotifyGo n cs
    else '.' :: dotifyGo n (cs.dropWhile (fun d => !(isLowerAlphaC d || isDigitC d)))

def usernameClean (s : Str) : Str := pyStripSet ['.'] (dotifyGo (s.length + 1) s)

def joinWith (sep : Char) : List Str → Str
  | [] => []
  | [x] => x
  | x :: xs => x ++ sep :: joinWith sep xs

/-- `build_username_from_name(first_name, last_name)`. -/
def build_username_from_name (first last : Str) : Str :=
  let fn := lowerL (pyStrip first)
  let ln := lowerL (pyStrip last)
  if fn ≠ [] ∨ ln ≠ [] then
    joinWith '.' (([usernameClean fn, usernameClean ln]).filter (fun p => p ≠ []))
  else []

/-- `normalize_title(title_candidate, context_text)`. -/
def normalize_title (cand context : Str) : Str :=
  let t := pyStrip cand
  if t ≠ [] ∧ isSubB (str "coach") (lowerL t) then t
  else if (searchPat (wordBoundedPrefCI (str "head")) context).isSome then str "Head Coach"
  else str "Assistant Coach"

/-- Word boundary between a known character and an optional neighbour. -/
def boundEdge (inside : Char) (outside : Option Char) : Bool :=
  isWordC inside ≠ (match outside with
    | some c => isWordC c
    | none => false)

/-- Anchored `\b<lit>\b` for a non-empty literal (case-insensitive),
returning the match length. -/
def wordBLitCI (lit : Str) (prev : Option Char) (t : Str) : Option Nat :=
  match lit.head? with
  | none => none
  | some c0 =>
    if boundEdge c0 prev then
      match takePrefCI lit t with
      | some rest =>
        if boundEdge ((lit.getLast?).getD c0) rest.head? then some lit.length else none
      | none => none
    else none

end RMC

namespace RMC

/-- Anchored `\b<w1>\s+<w2>\b` (case-insensitive), returning the match
length. -/
def wordBPairCI (w1 w2 : Str) (prev : Option Char) (t : Str) : Option Nat :=
  match w1.head? with
  | none => none
  | some c0 =>
    if boundEdge c0 prev then
      match (takePrefCI w1 t).bind takeWs1 with
      | some rest =>
        match takePrefCI w2 rest with
        | some rest2 =>
          if boundEdge ((w2.getLast?).getD c0) rest2.head? then some (t.length - rest2.length)
          else none
        | none => none
      | none => none
    else none

/-- Global `re.sub(rf"\b&lt;word&gt;\b", "", t, flags=IGNORECASE)`. -/
def removeWordB (w : Str) (t : Str) : Str := subAllB (wordBLitCI w) [] t

def removePairB (w1 w2 : Str) (t : Str) : Str := subAllB (wordBPairCI w1 w2) [] t

/-- The strip set `" -—–,:\t\n"` used by the title cleaners. -/
def titleStripPunct : Str := [' ', '-', emDash, enDash, ',', ':', '\t', '\n']

/-- `re.sub(r"\s{2,}", " ", t)`: collapse whitespace runs of length at
least two into a single space (single whitespace characters are kept
verbatim). -/
def collapseWsGo : Nat → Str → Str
  | 0, _ => []
  | _ + 1, [] => []
  | n + 1, c :: cs =>
    if isSpaceC c && (match cs.head? with
      | some d => isSpaceC d
      | none => false) then
      ' ' :: collapseWsGo n (cs.dropWhile isSpaceC)
    else c :: collapseWsGo n cs

def collapseWs (s : Str) : Str := collapseWsGo (s.length + 1) s

/-- `strip_name_from_title(title_text, first_name, last_name)`. -/
def strip_name_from_title (title fn ln : Str) : Str :=
  let t := pyStrip title
  if t = [] then t
  else
    let t := if fn ≠ [] then removeWordB fn t else t
    let t := if ln ≠ [] then removeWordB ln t else t
    let t := if fn ≠ [] ∧ ln ≠ [] then removePairB fn ln t else t
    let t := if fn ≠ [] ∧ ln ≠ [] then removePairB ln fn t else t
    pyStrip (pyStripSet titleStripPunct (collapseWs t))

def dashDot (c : Char) : Bool := c = '-' || c = '.'

def takeDashDot : Str → Option Str
  | [] => none
  | c :: cs => if dashDot c then some cs else none

/-- `\(\d{3}\)\s*\d{3}[-\.]\d{4}` anchored. -/
def cleanPat1 (_ : Option Char) (s : Str) : Option Nat :=
  lenOf s ((takeLit '(' s).bind (takeDigits 3) |>.bind (takeLit ')') |>.bind takeWs0
    |>.bind (takeDigits 3) |>.bind takeDashDot |>.bind (takeDigits 4))

/-- `\b\d{3}[-\.]\d{3}[-\.]\d{4}\b` anchored. -/
def cleanPat2 (prev : Option Char) (s : Str) : Option Nat :=
  if noWordB prev then
    match (takeDigits 3 s).bind takeDashDot |>.bind (takeDigits 3) |>.bind takeDashDot
        |>.bind (takeDigits 4) with
    | some rest => if noWordB rest.head? then some (s.length - rest.length) else none
    | none => none
  else none

/-- `\b\d{3}[-\.]\d{4}\b` anchored. -/
def cleanPat3 (prev : Option Char) (s : Str) : Option Nat :=
  if noWordB prev then
    match (takeDigits 3 s).bind takeDashDot |>.bind (takeDigits 4) with
    | some rest => if noWordB rest.head? then some (s.length - rest.length) else none
    | none => none
  else none

/-- `\b\d{3}[-\.]\b` anchored (the closing boundary sits between the
separator and a following word character). -/
def cleanPat4 (prev : Option Char) (s : Str) : Option Nat :=
  if noWordB prev then
    match (takeDigits 3 s).bind takeDashDot with
    | some rest =>
      match rest.head? with
      | some c => if isWordC c then some 4 else none
      | none => none
    | none => none
  else none

def sepCls5 (c : Char) : Bool := isSpaceC c || c = '-' || c = enDash || c = ',' || c = ':'

/-- Anchored test for `[\s\-–,:]*\b\d{2,}\b.*$`. -/
def cleanPat5At (prev : Option Char) (t : Str) : Option Unit :=
  let sep := t.takeWhile sepCls5
  let rest := t.drop sep.length
  if sep = [] ∧ ¬noWordB prev then none
  else
    let ds := rest.takeWhile isDigitC
    if 2 ≤ ds.length ∧ noWordB ((rest.drop ds.length).head?) then some () else none

/-- `clean_title_text(title_text)`. -/
def clean_title_text (title : Str) : Str :=
  if title = [] then title
  else
    let t := subAllB cleanPat1 [] title
    let t := subAllB cleanPat2 [] t
    let t := subAllB cleanPat3 [] t
    let t := subAllB cleanPat4 [] t
    let t := match searchPat cleanPat5At t with
      | some p => t.take p.1
      | none => t
    pyStrip (pyStripSet titleStripPunct (collapseWs t))

def titlePrefixes : List Str :=
  [str "dr.", str "dr", str "mr.", str "mr", str "ms.", str "ms", str "mrs.", str "mrs"]

def dashCommaSet : Str := ['-', emDash, enDash, ',', ':']

/-- `derive_title_from_namepart(name_part, first_name, last_name)`. -/
def derive_title_from_namepart (name_part fn ln : Str) : Str :=
  let s := pyStrip name_part
  let toks := splitWs s
  let toks := toks.dropWhile (fun t => titlePrefixes.contains (lowerL t))
  let toks := match toks with
    | t :: rest => if fn ≠ [] ∧ lowerL t = lowerL fn then rest else toks
    | [] => toks
  let toks := match toks with
    | t :: rest => if ln ≠ [] ∧ lowerL t = lowerL ln then rest else toks
    | [] => toks
  let cleaned := pyStrip (pyLStripSet dashCommaSet (pyStrip (joinSpace toks)))
  let cleaned := if !isSubB (str "coach") (lowerL cleaned) then extract_coach_title s else cleaned
  pyStrip cleaned

/-- `[A-Za-z][A-Za-z’'\-]+` under `re.IGNORECASE`, returning the word and
the residue. -/
def grabNameWord : Str → Option (Str × Str)
  | [] => none
  | c :: cs =>
    if isAlphaC c then
      let t := cs.takeWhile (fun d => isAlphaC d || d = rApoC || d = apoC || d = '-')
      if t = [] then none else some (c :: t, cs.drop t.length)
    else none

/-- `re.match(r"^([A-Za-z][A-Za-z’'\-]+)\s+Coach\b", s, re.IGNORECASE)`:
the captured word together with the text after `Coach`. -/
def matchSurnameCoach (s : Str) : Option (Str × Str) :=
  match grabNameWord s with
  | some (word, rest) =>
    match (takeWs1 rest).bind (takePrefCI (str "coach")) with
    | some rest2 => if noWordB rest2.head? then some (word, rest2) else none
    | none => none
  | none => none

/-- `re.sub(rf"^{re.escape(word)}\s+Coach\b", "Coach", title, flags=IGNORECASE)`. -/
def subSurnameCoach (word title : Str) : Str :=
  match (takePrefCI word title).bind takeWs1 |>.bind (takePrefCI (str "coach")) with
  | some rest => if noWordB rest.head? then str "Coach" ++ rest else title
  | none => title

/-- The surname-leak correction of the single-line pass (source lines
556-567): strips a leading surname from `<Word> Coach` titles when the
word occurs in the username or equals an email-derived name token. -/
def surnameLeakStep (title username dfF dfL : Str) : Str :=
  match matchSurnameCoach (pyStrip title) with
  | none => title
  | some (word, _) =>
    let hit1 := word ≠ [] ∧ username ≠ [] ∧
      (isSubB (lowerL word) (lowerL username) ∨ endsWithB (lowerL username) (lowerL word))
    let hit : Bool := hit1 ∨ (¬hit1 ∧ (dfF ≠ [] ∨ dfL ≠ []) ∧ word ≠ [] ∧
      ((dfF ≠ [] ∧ lowerL word = lowerL dfF) ∨ (dfL ≠ [] ∧ lowerL word = lowerL dfL)))
    if hit then subSurnameCoach word title else title

/-- The surname-leak correction of the window pass (source lines
740-744): only the username is consulted. -/
def surnameLeakStepW (title username : Str) : Str :=
  match matchSurnameCoach (pyStrip title) with
  | none => title
  | some (word, _) =>
    if username ≠ [] ∧ word ≠ [] ∧
        (isSubB (lowerL word) (lowerL username) ∨ endsWithB (lowerL username) (lowerL word)) then
      subSurnameCoach word title
    else title

end RMC

namespace RMC

def firstSome (f : α → Option β) : List α → Option β
  | [] => none
  | a :: as =>
    match f a with
    | some b => some b
    | none => firstSome f as

/-- `[A-Z][A-Za-z’'\-\.]+` under `re.IGNORECASE`, returning the residue. -/
def takeNameWordDot : Str → Option Str
  | [] => none
  | c :: cs =>
    if isAlphaC c then
      let t := cs.takeWhile (fun d => isAlphaC d || d = rApoC || d = apoC || d = '-' || d = '.')
      if t = [] then none else some (cs.drop t.length)
    else none

/-- All positions of a case-insensitive `coach` whose left neighbour is
not a word character (the `\bcoach` occurrences enumerated by the lazy
prefix of the role-then-name pattern). -/
def coachPosGo : Option Char → Nat → Str → List Nat
  | _, _, [] => []
  | prev, i, c :: cs =>
    (if noWordB prev ∧ (takePrefCI (str "coach") (c :: cs)).isSome then [i] else []) ++
      coachPosGo (some c) (i + 1) cs

def coachPositions (s : Str) : List Nat := coachPosGo none 0 s

/-- Characters of `[\w\s/&\-’']` (the optional run after `coach` in the
role group). -/
def roleTailCls (c : Char) : Bool :=
  isWordC c || isSpaceC c || c = '/' || c = '&' || c = '-' || c = rApoC || c = apoC

/-- Consume as many `\s+<name word>` groups as possible, up to `n`,
returning how many were consumed and the residue. -/
def consumeExtras : Nat → Str → Nat × Str
  | 0, r => (0, r)
  | n + 1, r =>
    match (takeWs1 r).bind takeNameWordDot with
    | some r2 =>
      let p := consumeExtras n r2
      (p.1 + 1, p.2)
    | none => (0, r)

/-- The name group `[A-Z][A-Za-z’'\-\.]+(?:\s+[A-Z][A-Za-z’'\-\.]+){1,3}\s*$`:
returns the name text when the residue parses to the end. -/
def nameGroupParse (r1 : Str) : Option Str :=
  match takeNameWordDot r1 with
  | some rest0 =>
    let p := consumeExtras 3 rest0
    if 1 ≤ p.1 ∧ p.2.all isSpaceC then some (r1.take (r1.length - p.2.length)) else none
  | none => none

/-- `re.search` of the anchored role-then-name pattern
`^(?P<role>.*?\bcoach(?:[\w\s/&\-’']*)?)\s+(?P<name>...){1,3})\s*$`:
returns `(role, name)`. -/
def roleNameAt (pre : Str) : Option (Str × Str) :=
  firstSome (fun p =>
    let afterC := p + 5
    let run := (pre.drop afterC).takeWhile roleTailCls
    firstSome (fun q =>
      match takeWs1 (pre.drop (afterC + q)) with
      | some r1 =>
        -- the name group must account for everything `\s+` skipped
        (nameGroupParse ((pre.drop (afterC + q)).drop
            ((pre.drop (afterC + q)).length - r1.length))).map
          (fun nm => (pre.take (afterC + q), nm))
      | none => none)
      ((List.range (run.length + 1)).reverse))
    (coachPositions pre)

/-- Characters of `[A-Za-z'’/&\-\s]` (the lazy prefix of the
phrase-ending-in-coach pattern). -/
def mEndCls (c : Char) : Bool :=
  isAlphaC c || c = apoC || c = rApoC || c = '/' || c = '&' || c = '-' || isSpaceC c

/-- Characters of `[A-Za-z'’/&\-]` (one word of that phrase). -/
def mEndWordCls (c : Char) : Bool :=
  isAlphaC c || c = apoC || c = rApoC || c = '/' || c = '&' || c = '-'

/-- Consume exactly `k` repetitions of `[A-Za-z'’/&\-]+\s+`. -/
def consumePairs : Nat → Str → Option Str
  | 0, r => some r
  | k + 1, r =>
    let w := r.takeWhile mEndWordCls
    if w = [] then none
    else
      match takeWs1 (r.drop w.length) with
      | some r2 => consumePairs k r2
      | none => none

/-- After `k` word-pairs, `coach` with a closing `\b` and `\s*$`. -/
def mEndTail (k : Nat) (r : Str) : Option Nat :=
  match consumePairs k r with
  | some r2 =>
    match takePrefCI (str "coach") r2 with
    | some r3 =>
      if noWordB r3.head? ∧ r3.all isSpaceC then some (r.length - r3.length) else none
    | none => none
  | none => none

/-- Anchored `([A-Za-z'’/&\-\s]*?\b(?:[A-Za-z'’/&\-]+\s+){1,6}coach)\b\s*$`:
the group text (lazy prefix, then a greedy 1-6 word count). -/
def mEndAt (prev : Option Char) (t : Str) : Option Str :=
  let erun := t.takeWhile mEndCls
  firstSome (fun l =>
    let leftOk := if l = 0 then noWordB prev else !isWordC (erun.getD (l - 1) ' ')
    if !leftOk then none
    else
      (firstSome (fun k => mEndTail k (t.drop l)) [6, 5, 4, 3, 2, 1]).map
        (fun clen => t.take (l + clen)))
    (List.range (erun.length + 1))

/-- Characters of `[A-Za-z’/&\-\s]` (note: no ASCII apostrophe). -/
def p3cls (c : Char) : Bool :=
  isAlphaC c || c = rApoC || c = '/' || c = '&' || c = '-' || isSpaceC c

/-- Characters of `[ A-Za-z’/&-]` (a literal space, not general `\s`). -/
def t3cls (c : Char) : Bool :=
  c = ' ' || isAlphaC c || c = rApoC || c = '/' || c = '&' || c = '-'

/-- Anchored `([A-Za-z’/&\-\s]*?\bcoach\b[ A-Za-z’/&\-]*)$`: the group is
the whole suffix when it matches. -/
def thirdPatAt (prev : Option Char) (t : Str) : Option Str :=
  let prun := t.takeWhile p3cls
  firstSome (fun l =>
    let left := if l = 0 then prev else some (prun.getD (l - 1) ' ')
    match wordBoundedPrefCI (str "coach") left (t.drop l) with
    | some rest => if rest.all t3cls then some t else none
    | none => none)
    (List.range (prun.length + 1))

/-- `re.sub(re.escape(x) + r"\s*$", "", pre, flags=re.IGNORECASE)`. -/
def removeSuffixCIWs (x pre : Str) : Str :=
  match searchPat (fun _ t =>
    match takePrefCI x t with
    | some r => if r.all isSpaceC then some () else none
    | none => none) pre with
  | some p => pre.take p.1
  | none => pre

def nameTailSepCls (c : Char) : Bool :=
  c = '-' || c = emDash || c = enDash || c = ',' || c = ':' || c = '/' || isSpaceC c

/-- One keyword of the trailing-role alternation, with its closing `\b`
(in the pattern's alternation order, including the `recruit(?:ing|er)?`
and `operations?` forms). -/
def nameTailKw (rest : Str) : Bool :=
  let simple := fun (kw : String) =>
    match takePrefCI (str kw) rest with
    | some r => noWordB r.head?
    | none => false
  simple "head" || simple "assistant" || simple "associate" || simple "coach" ||
  simple "coordinator" || simple "director" ||
  simple "recruiting" || simple "recruiter" || simple "recruit" ||
  simple "operations" || simple "operation" ||
  simple "strength" || simple "conditioning" || simple "athletic" || simple "performance" ||
  simple "men" || simple "women" || simple "men's" || simple "women's"

/-- The trailing-role strip applied to `name_only` in
`split_name_and_title`:
`re.sub(r"[-—–,:/\s]*(?:head|...|women's)\b.*$", "", name_only, flags=IGNORECASE)`. -/
def nameTailStrip (s : Str) : Str :=
  match searchPat (fun _ t =>
    if nameTailKw (t.drop (t.takeWhile nameTailSepCls).length) then some () else none) s with
  | some p => s.take p.1
  | none => s

/-- `split_name_and_title(pre_email_text)`: `(first, last, title)`. -/
def split_name_and_title (pre_email : Str) : Str × Str × Str :=
  let pre := pyStrip pre_email
  if pre = [] then ([], [], [])
  else
    let branch : Str × Str :=
      match roleNameAt pre with
      | some rn => (pyStrip rn.1, pyStrip rn.2)
      | none =>
        match searchPat mEndAt pre with
        | some pg =>
          (pyStrip pg.2,
           pyStrip (pyRStripSet dashCommaSet (pyStrip (removeSuffixCIWs pg.2 pre))))
        | none =>
          match searchPat thirdPatAt pre with
          | some pg =>
            let title := pyStrip pg.2
            (title, pyStrip (pyRStripSet dashCommaSet (pyStrip (removeSuffixCIWs title pre))))
          | none => (extract_coach_title pre, pre)
    let name_only := pyStrip (nameTailStrip branch.2)
    let fl := clean_name_tokens name_only
    (fl.1, fl.2, branch.1)

end RMC

namespace RMC

/-- A contact record as built by `parse_pdf` (absent dict keys are
modelled as `none` / empty). -/
structure Entry where
  first_name : Str
  last_name : Str
  email : Str
  username : Str
  full_line : Str
  role : Str
  title : Str
  sport_section : Option Str
  uploadable : Bool
  phone : Option Str
deriving Repr, DecidableEq

/-- `[A-Z][A-Za-z’'\-]+` (case-sensitive), returning word and residue. -/
def grabWordCS : Str → Option (Str × Str)
  | [] => none
  | c :: cs =>
    if isUpperAlphaC c then
      let t := cs.takeWhile (fun d => isAlphaC d || d = rApoC || d = apoC || d = '-')
      if t = [] then none else some (c :: t, cs.drop t.length)
    else none

/-- `re.match(r"^([A-Z][A-Za-z’'\-]+)\s+([A-Z][A-Za-z’'\-]+)(?:\s+[A-Z][A-Za-z’'\-]+)?$", prev)`
(case-sensitive): the two captured words. -/
def recoveredNameMatch (s : Str) : Option (Str × Str) :=
  match grabWordCS s with
  | some (w1, r1) =>
    match (takeWs1 r1).bind grabWordCS with
    | some (w2, r3) =>
      if r3 = [] then some (w1, w2)
      else
        match (takeWs1 r3).bind grabWordCS with
        | some (_, r5) => if r5 = [] then some (w1, w2) else none
        | none => none
    | none => none
  | none => none

/-- The recovered-name look-back of the single-line pass (up to three
previous lines). -/
def pass1LookBack (lines : List Str) (i : Nat) : Str × Str :=
  (firstSome (fun back =>
    if i < back then none
    else
      let prev := pyStrip (lines.getD (i - back) [])
      if prev = [] ∨ prev.contains '@' ∨ isSubB (str "coach") (lowerL prev) then none
      else recoveredNameMatch prev) [1, 2, 3]).getD ([], [])

/-- The record built by the single-line pass for a qualifying line
(source lines 478-584). -/
def pass1Entry (lines : List Str) (area : Option Str) (i : Nat) (line : Str)
    (emailStart : Nat) (email : Str) (sect : Option Str) : Entry :=
  let name_part := pyStrip (line.take emailStart)
  let phone_number := extract_and_format_phone line area
  let s3 := split_name_and_title name_part
  let s_first := s3.1
  let s_last := s3.2.1
  let s_title := s3.2.2
  let fl :=
    if s_first ≠ [] ∨ s_last ≠ [] then sanitize_name s_first s_last
    else
      let tokens := splitWs name_part
      let tokens := match tokens with
        | t :: rest => if lowerL t = str "dr." ∨ lowerL t = str "dr" then rest else tokens
        | [] => tokens
      sanitize_name (tokens.headD []) ((tokens.drop 1).headD [])
  let fl :=
    if fl.1 = [] ∧ fl.2 = [] then
      let rec2 := pass1LookBack lines i
      if rec2.1 ≠ [] ∨ rec2.2 ≠ [] then sanitize_name rec2.1 rec2.2
      else
        let df := derive_name_from_email email
        sanitize_name df.1 df.2
    else fl
  let fl :=
    if fl.2 = [] ∧ (s_title ≠ [] ∨ name_part ≠ []) then
      match matchSurnameCoach (pyStrip (if s_title ≠ [] then s_title else name_part)) with
      | some (last_candidate, _) =>
        let last := last_candidate
        let first :=
          if fl.1 = [] then
            let df2 := derive_name_from_email email
            if df2.2 ≠ [] ∧ lowerL df2.2 = lowerL last then df2.1
            else if df2.1 ≠ [] ∧ endsWithB (lowerL df2.1) (lowerL last) ∧
                last.length < df2.1.length then
              capitalizeP (pyStripSet ['.', '_', '-'] (df2.1.take (df2.1.length - last.length)))
            else if df2.1 ≠ [] then df2.1
            else fl.1
          else fl.1
        sanitize_name first last
      | none => fl
    else fl
  let username := localPart email
  let dfAux := derive_name_from_email email
  let title_text0 :=
    if s_title ≠ [] then s_title else derive_title_from_namepart name_part fl.1 fl.2
  let fl :=
    if fl.2 = [] ∧ title_text0 ≠ [] then
      match matchSurnameCoach (pyStrip title_text0) with
      | some (w, _) =>
        let last := w
        let first :=
          if fl.1 = [] then
            let df2 := derive_name_from_email email
            if df2.1 ≠ [] ∧ (df2.2 = [] ∨ lowerL df2.2 = lowerL last) then df2.1
            else if df2.2 ≠ [] ∧ lowerL df2.2 ≠ lowerL last then df2.2
            else fl.1
          else fl.1
        sanitize_name first last
      | none => fl
    else fl
  let title_text := normalize_title title_text0 name_part
  let title_text := strip_name_from_title title_text fl.1 fl.2
  let title_text := surnameLeakStep title_text username dfAux.1 dfAux.2
  let title_text := clean_title_text title_text
  let roleTitle := if title_text ≠ [] then title_text else extract_coach_title line
  { first_name := fl.1, last_name := fl.2, email := email, username := username,
    full_line := pyStrip line, role := roleTitle, title := roleTitle,
    sport_section := sect, uploadable := true,
    phone := match phone_number with
      | some p => if p ≠ [] then some p else none
      | none => none }

def pass1Go (lines : List Str) (area : Option Str) :
    Nat → List Str → Option Str → List Entry
  | _, [], _ => []
  | i, line :: rest, sect =>
    let stripped := pyStrip line
    if isSportHeader stripped then pass1Go lines area (i + 1) rest (some stripped)
    else
      match findEmailMatch line with
      | none => pass1Go lines area (i + 1) rest sect
      | some (st, email) =>
        if isSubB (str "coach") (lowerL line) then
          pass1Entry lines area i line st email sect :: pass1Go lines area (i + 1) rest sect
        else pass1Go lines area (i + 1) rest sect

/-- The single-line pass. -/
def pass1 (lines : List Str) (area : Option Str) : List Entry :=
  pass1Go lines area 0 lines none

def pass2Keywords : List Str :=
  [str "coaching", str "staff", str "soccer", str "university", str "2025", str "/",
   str "pm", str "am", str "director of"]

/-- The backward title/name search of the multi-line pass. -/
def pass2FindTitle (lines : List Str) (i : Nat) : Str × Str :=
  (firstSome (fun j =>
    if i < j then none
    else
      let prev := pyStrip (lines.getD (i - j) [])
      if isSubB (str "coach") (lowerL prev) then
        let nm :=
          if j + 1 ≤ i then
            let potential := pyStrip (lines.getD (i - j - 1) [])
            if potential ≠ [] ∧ (findEmailMatch potential) = none ∧
                !pass2Keywords.any (fun k => isSubB k (lowerL potential)) ∧
                2 ≤ (splitWs potential).length then
              potential
            else []
          else []
        some (prev, nm)
      else none) [1, 2, 3]).getD ([], [])

/-- The forward phone search of the multi-line pass. -/
def pass2FindPhone (lines : List Str) (area : Option Str) (i : Nat) : Option Str :=
  firstSome (fun j =>
    if lines.length ≤ i + j then none
    else extract_and_format_phone (pyStrip (lines.getD (i + j) [])) area) [1, 2, 3]

/-- The record built by the multi-line pass (source lines 636-677). -/
def pass2Entry (coach_title coach_name email : Str) (phone : Option Str) : Entry :=
  let name_tokens := splitWs coach_name
  let name_tokens := match name_tokens with
    | t :: rest => if lowerL t = str "dr." ∨ lowerL t = str "dr" then rest else name_tokens
    | [] => name_tokens
  let first := name_tokens.headD []
  let last := if 1 < name_tokens.length then joinSpace (name_tokens.drop 1) else []
  let fl := sanitize_name first last
  let fl :=
    if fl.1 = [] ∧ fl.2 = [] ∧ email ≠ [] then
      let df := derive_name_from_email email
      sanitize_name df.1 df.2
    else fl
  let fl :=
    if fl.2 = [] ∧ coach_title ≠ [] then
      match matchSurnameCoach (pyStrip coach_title) with
      | some (w, _) =>
        let last := w
        let first :=
          if fl.1 = [] ∧ email ≠ [] then
            let df2 := derive_name_from_email email
            if df2.1 ≠ [] ∧ (df2.2 = [] ∨ lowerL df2.2 = lowerL last) then df2.1
            else if df2.2 ≠ [] ∧ lowerL df2.2 ≠ lowerL last then df2.2
            else fl.1
          else fl.1
        sanitize_name first last
      | none => fl
    else fl
  let roleTitle := clean_title_text (if coach_title ≠ [] then coach_title else str "coach")
  { first_name := fl.1, last_name := fl.2, email := email, username := localPart email,
    full_line := pyStrip (coach_name ++ ' ' :: coach_title ++ ' ' :: email),
    role := roleTitle, title := roleTitle, sport_section := none, uploadable := true,
    phone := match phone with
      | some p => if p ≠ [] then some p else none
      | none => none }

def pass2Go (lines : List Str) (area : Option Str) : Nat → List Str → List Entry
  | _, [] => []
  | i, line :: rest =>
    match findEmailMatch line with
    | none => pass2Go lines area (i + 1) rest
    | some (_, email) =>
      let tc := pass2FindTitle lines i
      let phone := pass2FindPhone lines area i
      if tc.1 ≠ [] ∧ isSubB (str "coach") (lowerL tc.1) then
        pass2Entry tc.1 tc.2 email phone :: pass2Go lines area (i + 1) rest
      else pass2Go lines area (i + 1) rest

/-- The multi-line pass. -/
def pass2 (lines : List Str) (area : Option Str) : List Entry :=
  pass2Go lines area 0 lines

/-- `list(range(-8, 9))` of the window pass. -/
def windowOffsets : List Int :=
  [-8, -7, -6, -5, -4, -3, -2, -1, 0, 1, 2, 3, 4, 5, 6, 7, 8]

/-- The nearby-line loop of the window pass: first offset (in list
order) whose line holds an email match. -/
def windowLoop (lines : List Str) (i : Nat) : List Int → Option (Str × Nat)
  | [] => none
  | d :: ds =>
    if d = 0 ∨ (i : Int) + d < 0 ∨ (lines.length : Int) ≤ (i : Int) + d then
      windowLoop lines i ds
    else
      match findEmailMatch (lines.getD ((i : Int) + d).toNat []) with
      | some (_, em) => some (em, ((i : Int) + d).toNat)
      | none => windowLoop lines i ds

/-- Locate an email for a coach line: on the line itself, else within
the ±8-line window. -/
def windowFindEmail (lines : List Str) (i : Nat) (line : Str) : Option (Str × Nat) :=
  match findEmailMatch line with
  | some (_, em) => some (em, i)
  | none => windowLoop lines i windowOffsets

/-- The record built by the window pass when an unseen email was found
(source lines 710-758). -/
def pass3Entry (lines : List Str) (line : Str) (email : Str)
    (emailLineIdx : Nat) (title : Str) : Entry :=
  let username := localPart email
  let pre := pyStrip (splitOnceBefore email (lines.getD emailLineIdx []))
  let s3 := split_name_and_title pre
  let fl := sanitize_name s3.1 s3.2.1
  let fl :=
    if fl.1 = [] ∧ fl.2 = [] then
      let df := derive_name_from_email email
      sanitize_name df.1 df.2
    else fl
  let fl :=
    if fl.2 = [] ∧ pre ≠ [] then
      match matchSurnameCoach pre with
      | some (w, _) =>
        let last := w
        let first :=
          if fl.1 = [] then
            let df3 := derive_name_from_email email
            if df3.2 ≠ [] ∧ lowerL df3.2 = lowerL last then df3.1
            else if df3.1 ≠ [] ∧ endsWithB (lowerL df3.1) (lowerL last) ∧
                last.length < df3.1.length then
              capitalizeP (pyStripSet ['.', '_', '-'] (df3.1.take (df3.1.length - last.length)))
            else if df3.1 ≠ [] then df3.1
            else fl.1
          else fl.1
        sanitize_name first last
      | none => fl
    else fl
  let nt := normalize_title (if title ≠ [] then title else s3.2.2) pre
  let nt := strip_name_from_title nt fl.1 fl.2
  let nt := surnameLeakStepW nt username
  let nt := clean_title_text nt
  { first_name := fl.1, last_name := fl.2, email := email, username := username,
    full_line := pyStrip line ++ ' ' :: email, role := nt, title := nt,
    sport_section := none, uploadable := true, phone := none }

def rawStripKw (rest : Str) : Bool :=
  let simple := fun (kw : String) =>
    match takePrefCI (str kw) rest with
    | some r => noWordB r.head?
    | none => false
  simple "head" || simple "assistant" || simple "associate" || simple "coach" ||
  simple "coaching" || simple "coordinator" || simple "director" || simple "staff"

/-- `re.sub(r"\b(head|assistant|associate|coach|coaching|coordinator|director|staff)\b.*$", "", raw, flags=IGNORECASE)`. -/
def rawNameStrip (s : Str) : Str :=
  match searchPat (fun prev t => if noWordB prev ∧ rawStripKw t then some () else none) s with
  | some p => s.take p.1
  | none => s

/-- The review-only record built by the window pass when no nearby
unseen email exists (source lines 759-779). -/
def pass3NoEmailEntry (line : Str) (title : Str) : Entry :=
  let raw := pyStrip line
  let fl :=
    if hasCoachingStaff raw then ([], [])
    else clean_name_tokens (pyStrip (rawNameStrip raw))
  let roleTitle := if title ≠ [] then title else str "coach"
  { first_name := fl.1, last_name := fl.2, email := [], username := [],
    full_line := pyStrip line, role := roleTitle, title := roleTitle,
    sport_section := none, uploadable := false, phone := none }

def pass3Go (lines : List Str) : Nat → List Str → List Str → List Str → List Entry
  | _, [], _, _ => []
  | i, line :: rest, seenEmails, seenFull =>
    if !isSubB (str "coach") (lowerL line) then pass3Go lines (i + 1) rest seenEmails seenFull
    else if seenFull.contains (pyStrip line) then pass3Go lines (i + 1) rest seenEmails seenFull
    else
      let title := extract_coach_title line
      match windowFindEmail lines i line with
      | some (email, eIdx) =>
        if !seenEmails.contains email then
          pass3Entry lines line email eIdx title ::
            pass3Go lines (i + 1) rest (email :: seenEmails) (pyStrip line :: seenFull)
        else
          pass3NoEmailEntry line title ::
            pass3Go lines (i + 1) rest seenEmails (pyStrip line :: seenFull)
      | none =>
        pass3NoEmailEntry line title ::
          pass3Go lines (i + 1) rest seenEmails (pyStrip line :: seenFull)

/-- The always-run window-augmentation pass, seeded with the seen-email
and seen-line sets of the earlier passes. -/
def pass3 (lines : List Str) (seenEmails seenFull : List Str) : List Entry :=
  pass3Go lines 0 lines seenEmails seenFull

/-- The header-likeness test of the post-processor. -/
def headerLikeE (e : Entry) : Bool :=
  let fll := lowerL e.full_line
  let disp := lowerL (pyStrip (e.first_name ++ ' ' :: e.last_name))
  isSubB (str "coaching staff") fll ||
  isPrefB (str "coaches") (pyStrip fll) ||
  disp = [] || disp = str "staff" || disp = str "coaches" || disp = str "coaching"

/-- The name-trim applied to every record by the post-processor. -/
def trimNames (e : Entry) : Entry :=
  { e with first_name := pyStrip e.first_name, last_name := pyStrip e.last_name }

/-- The per-record post-processing step (source lines 782-800): trim the
name fields and, for email-less non-header records, back-fill the
username. -/
def postStep (e : Entry) : Entry :=
  let e1 := trimNames e
  if e1.email = [] then
    if e1.username = [] ∧ !headerLikeE e1 then
      let uname := build_username_from_name e1.first_name e1.last_name
      if uname ≠ [] then
        { e1 with username := uname,
                  uploadable := (if e1.uploadable = false then true else e1.uploadable) }
      else e1
    else e1
  else e1

/-- Passes 1 and 2: the multi-line pass runs only when the single-line
pass found nothing. -/
def stage12 (lines : List Str) (area : Option Str) : List Entry :=
  let s1 := pass1 lines area
  if s1 = [] then pass2 lines area else s1

def seenEmails0 (stage : List Entry) : List Str :=
  (stage.filter (fun e => e.email ≠ [])).map (fun e => e.email)

def seenFull0 (stage : List Entry) : List Str :=
  (stage.filter (fun e => e.full_line ≠ [])).map (fun e => e.full_line)

/-- `parse_pdf` restricted to its record-extraction behaviour: area-code
detection, the three-pass cascade over the split lines, and
post-processing.  Returns the entry list. -/
def parse_pdf (text : Str) : List Entry :=
  let area := detectAreaCode text
  let lines := splitLinesPy text
  let stage := stage12 lines area
  (stage ++ pass3 lines (seenEmails0 stage) (seenFull0 stage)).map postStep

end RMC

namespace RMC

theorem isPrefB_iff (a : Str) : ∀ b, isPrefB a b = true ↔ ∃ t, b = a ++ t := by
  induction a with
  | nil => intro b; simp [isPrefB]
  | cons c cs ih =>
    intro b
    cases b with
    | nil => simp [isPrefB]
    | cons d ds =>
      simp only [isPrefB, Bool.and_eq_true, decide_eq_true_eq, ih, List.cons_append,
        List.cons.injEq]
      constructor
      · rintro ⟨rfl, t, rfl⟩; exact ⟨t, rfl, rfl⟩
      · rintro ⟨t, rfl, rfl⟩; exact ⟨rfl, t, rfl⟩

theorem isSubB_iff (a : Str) : ∀ b, isSubB a b = true ↔ ∃ s t, b = s ++ a ++ t := by
  intro b
  induction b with
  | nil =>
    simp only [isSubB, isPrefB_iff]
    constructor
    · rintro ⟨t, ht⟩
      exact ⟨[], t, by simpa using ht⟩
    · rintro ⟨s, t, ht⟩
      have h2 : s = [] ∧ (a = [] ∧ t = []) := by
        have h3 := ht.symm
        simpa [List.append_eq_nil, and_assoc] using h3
      exact ⟨[], by simp [h2.2.1]⟩
  | cons d ds ih =>
    simp only [isSubB, Bool.or_eq_true, isPrefB_iff, ih]
    constructor
    · rintro (⟨t, ht⟩ | ⟨s, t, ht⟩)
      · exact ⟨[], t, by simpa using ht⟩
      · exact ⟨d :: s, t, by simp [ht]⟩
    · rintro ⟨s, t, ht⟩
      cases s with
      | nil => exact Or.inl ⟨t, by simpa using ht⟩
      | cons x xs =>
        have h1 : d = x ∧ ds = xs ++ a ++ t := by simpa using ht
        exact Or.inr ⟨xs, t, h1.2⟩

theorem isSubB_trans {a b c : Str} (h1 : isSubB a b = true) (h2 : isSubB b c = true) :
    isSubB a c = true := by
  rcases (isSubB_iff a b).mp h1 with ⟨s1, t1, hb⟩
  rcases (isSubB_iff b c).mp h2 with ⟨s2, t2, hc⟩
  subst hb
  subst hc
  exact (isSubB_iff a _).mpr ⟨s2 ++ s1, t1 ++ t2, by simp⟩

theorem endsWithB_isSubB {b a : Str} (h : endsWithB b a = true) : isSubB a b = true := by
  rcases (isPrefB_iff _ _).mp h with ⟨t, ht⟩
  refine (isSubB_iff a b).mpr ⟨t.reverse, [], ?_⟩
  have h2 := congrArg List.reverse ht
  simpa using h2

theorem isSubB_map (f : Char → Char) {a b : Str} (h : isSubB a b = true) :
    isSubB (a.map f) (b.map f) = true := by
  rcases (isSubB_iff a b).mp h with ⟨s, t, rfl⟩
  exact (isSubB_iff _ _).mpr ⟨s.map f, t.map f, by simp⟩

theorem isSubB_refl (a : Str) : isSubB a a = true :=
  (isSubB_iff a a).mpr ⟨[], [], by simp⟩

theorem dropWhile_decomp (p : Char → Bool) (l : Str) : ∃ s, l = s ++ l.dropWhile p := by
  induction l with
  | nil => exact ⟨[], rfl⟩
  | cons c cs ih =>
    by_cases h : p c
    · rcases ih with ⟨s, hs⟩
      refine ⟨c :: s, ?_⟩
      rw [List.dropWhile_cons_of_pos h]
      simpa using hs
    · refine ⟨[], ?_⟩
      rw [List.dropWhile_cons_of_neg h]
      simp

theorem isSubB_dropWhile (p : Char → Bool) (l : Str) : isSubB (l.dropWhile p) l = true := by
  rcases dropWhile_decomp p l with ⟨s, hs⟩
  exact (isSubB_iff _ _).mpr ⟨s, [], by simpa using hs⟩

theorem isSubB_reverse {a b : Str} (h : isSubB a b = true) :
    isSubB a.reverse b.reverse = true := by
  rcases (isSubB_iff a b).mp h with ⟨s, t, rfl⟩
  exact (isSubB_iff _ _).mpr ⟨t.reverse, s.reverse, by simp⟩

theorem isSubB_pyStrip (l : Str) : isSubB (pyStrip l) l = true := by
  unfold pyStrip
  have h1 : isSubB ((l.dropWhile isSpaceC).reverse.dropWhile isSpaceC)
      (l.dropWhile isSpaceC).reverse = true := isSubB_dropWhile _ _
  have h2 := isSubB_reverse h1
  simp only [List.reverse_reverse] at h2
  exact isSubB_trans h2 (isSubB_dropWhile _ _)

end RMC

namespace RMC
theorem toNat_ofNat_valid {n : Nat} (h : n < 55296) : (Char.ofNat n).toNat = n := by
  have hv : n.isValidChar := Or.inl h
  unfold Char.ofNat
  rw [dif_pos hv]
  rfl
theorem charEq_of_toNat {a b : Char} (h : a.toNat = b.toNat) : a = b := by
  apply Char.ext
  have h2 : a.val.toBitVec.toNat = b.val.toBitVec.toNat := h
  exact UInt32.eq_of_toBitVec_eq (BitVec.toNat_injective h2)
end RMC

namespace RMC

theorem lowerC_upperC (c : Char) : lowerC (upperC c) = lowerC c := by
  unfold upperC
  by_cases h : 97 ≤ c.toNat ∧ c.toNat ≤ 122
  · rw [if_pos h]
    unfold lowerC
    have ht : (Char.ofNat (c.toNat - 32)).toNat = c.toNat - 32 :=
      toNat_ofNat_valid (by omega)
    rw [if_pos (by omega), if_neg (by omega), ht]
    have : c.toNat - 32 + 32 = c.toNat := by omega
    rw [this, Char.ofNat_toNat]
  · rw [if_neg h]

theorem lowerC_idem (c : Char) : lowerC (lowerC c) = lowerC c := by
  unfold lowerC
  by_cases h : 65 ≤ c.toNat ∧ c.toNat ≤ 90
  · rw [if_pos h]
    have ht : (Char.ofNat (c.toNat + 32)).toNat = c.toNat + 32 :=
      toNat_ofNat_valid (by omega)
    rw [if_neg (by omega)]
  · rw [if_neg h, if_neg h]

theorem lowerL_idem (s : Str) : lowerL (lowerL s) = lowerL s := by
  unfold lowerL
  rw [List.map_map]
  exact List.map_congr_left (fun c _ => lowerC_idem c)

theorem lowerL_capitalizeP (q : Str) : lowerL (capitalizeP q) = lowerL q := by
  cases q with
  | nil => rfl
  | cons c cs =>
    show lowerC (upperC c) :: lowerL (lowerL cs) = lowerC c :: lowerL cs
    rw [lowerC_upperC, lowerL_idem]

theorem lowerL_upperL (p : Str) : lowerL (upperL p) = lowerL p := by
  unfold lowerL upperL
  rw [List.map_map]
  exact List.map_congr_left (fun c _ => lowerC_upperC c)

theorem isSubB_nil (b : Str) : isSubB [] b = true := by
  cases b <;> simp [isSubB, isPrefB]

theorem isSubB_cons_ext (c : Char) {a b : Str} (h : isSubB a b = true) :
    isSubB a (c :: b) = true := by
  rcases (isSubB_iff a b).mp h with ⟨s, t, rfl⟩
  exact (isSubB_iff _ _).mpr ⟨c :: s, t, by simp⟩

theorem takeWhile_drop_decomp (p : Char → Bool) (l : Str) :
    l = l.takeWhile p ++ l.drop (l.takeWhile p).length := by
  induction l with
  | nil => rfl
  | cons c cs ih =>
    by_cases h : p c
    · rw [List.takeWhile_cons_of_pos h]
      simpa using ih
    · rw [List.takeWhile_cons_of_neg h]
      rfl

theorem splitSepsGo_sub : ∀ n s x, x ∈ splitSepsGo n s → isSubB x s = true := by
  intro n
  induction n with
  | zero => intro s x hx; simp [splitSepsGo] at hx
  | succ m ih =>
    intro s x hx
    cases s with
    | nil => simp [splitSepsGo] at hx
    | cons c cs =>
      by_cases h : (c = '.' || c = '_' || c = '-') = true
      · simp only [splitSepsGo, h, if_true] at hx
        exact isSubB_cons_ext c (ih cs x hx)
      · simp only [splitSepsGo, h, if_false, Bool.false_eq_true, List.mem_cons] at hx
        rcases hx with hx | hx
        · subst hx
          refine (isSubB_iff _ _).mpr
            ⟨[], cs.drop (cs.takeWhile (fun d => !(d = '.' || d = '_' || d = '-'))).length, ?_⟩
          have h2 := takeWhile_drop_decomp (fun d => !(d = '.' || d = '_' || d = '-')) cs
          simpa using congrArg (c :: ·) h2
        · have h3 := ih _ x hx
          have h4 : isSubB x cs = true :=
            isSubB_trans h3 (isSubB_dropWhile _ cs)
          exact isSubB_cons_ext c h4

theorem splitSeps_sub {s x : Str} (hx : x ∈ splitSeps s) : isSubB x s = true :=
  splitSepsGo_sub _ s x hx

theorem camelSplit_decomp {p x y : Str} (h : camelSplit p = some (x, y)) : p = x ++ y := by
  cases p with
  | nil => simp [camelSplit] at h
  | cons c rest =>
    simp only [camelSplit] at h
    by_cases h1 : isUpperAlphaC c = true
    · rw [if_pos h1] at h
      by_cases h2 : rest.takeWhile isLowerAlphaC = []
      · rw [if_pos h2] at h; simp at h
      · rw [if_neg h2] at h
        rcases h3 : rest.drop (rest.takeWhile isLowerAlphaC).length with _ | ⟨d, rest3⟩
        · rw [h3] at h; simp at h
        · rw [h3] at h
          dsimp only at h
          by_cases h4 : isUpperAlphaC d = true
          · rw [if_pos h4] at h
            by_cases h5 : rest3.takeWhile isLowerAlphaC ≠ [] ∧
                rest3.drop (rest3.takeWhile isLowerAlphaC).length = []
            · rw [if_pos h5] at h
              have hx : x = c :: rest.takeWhile isLowerAlphaC ∧
                  y = d :: rest3.takeWhile isLowerAlphaC := by
                have := h
                simp at this
                exact ⟨this.1.symm, this.2.symm⟩
              have hr3 : rest3 = rest3.takeWhile isLowerAlphaC := by
                have hd := takeWhile_drop_decomp isLowerAlphaC rest3
                rw [h5.2] at hd
                simpa using hd
              have hr : rest = rest.takeWhile isLowerAlphaC ++ (d :: rest3) := by
                have hd := takeWhile_drop_decomp isLowerAlphaC rest
                rw [h3] at hd
                exact hd
              rw [hx.1, hx.2]
              rw [List.cons_append]
              congr 1
              rw [← hr3]
              exact hr
            · rw [if_neg h5] at h; simp at h
          · rw [if_neg h4] at h; simp at h
    · rw [if_neg h1] at h; simp at h

end RMC

namespace RMC

theorem derive_sub_local (email : Str) :
    isSubB (lowerL (derive_name_from_email email).1) (lowerL (localPart email)) = true ∧
    isSubB (lowerL (derive_name_from_email email).2) (lowerL (localPart email)) = true := by
  unfold derive_name_from_email
  split
  · exact ⟨isSubB_nil _, isSubB_nil _⟩
  · dsimp only
    rcases hp : splitSeps (localPart email) with _ | ⟨p, ps⟩
    · exact ⟨isSubB_nil _, isSubB_nil _⟩
    · have hpmem : p ∈ splitSeps (localPart email) := by rw [hp]; exact List.mem_cons_self _ _
      have hpsub : isSubB (lowerL p) (lowerL (localPart email)) = true :=
        isSubB_map lowerC (splitSeps_sub hpmem)
      rcases ps with _ | ⟨q, qs⟩
      · dsimp only
        rcases hc : camelSplit p with _ | ⟨x, y⟩
        · refine ⟨?_, isSubB_nil _⟩
          rw [lowerL_capitalizeP]
          exact hpsub
        · have hd := camelSplit_decomp hc
          have hxsub : isSubB x p = true :=
            (isSubB_iff x p).mpr ⟨[], y, by simpa using hd⟩
          have hysub : isSubB y p = true :=
            (isSubB_iff y p).mpr ⟨x, [], by simpa using hd⟩
          exact ⟨isSubB_trans (isSubB_map lowerC hxsub) hpsub,
                 isSubB_trans (isSubB_map lowerC hysub) hpsub⟩
      · have hqmem : q ∈ splitSeps (localPart email) := by
          rw [hp]; exact List.mem_cons_of_mem _ (List.mem_cons_self _ _)
        have hqsub : isSubB (lowerL q) (lowerL (localPart email)) = true :=
          isSubB_map lowerC (splitSeps_sub hqmem)
        dsimp only
        by_cases hl : p.length = 1
        · rw [if_pos hl]
          refine ⟨?_, ?_⟩
          · rw [lowerL_upperL]; exact hpsub
          · rw [lowerL_capitalizeP]; exact hqsub
        · rw [if_neg hl]
          refine ⟨?_, ?_⟩
          · rw [lowerL_capitalizeP]; exact hpsub
          · rw [lowerL_capitalizeP]; exact hqsub

end RMC

namespace RMC

theorem grabNameWord_decomp {s w r : Str} (h : grabNameWord s = some (w, r)) :
    s = w ++ r ∧ w ≠ [] := by
  cases s with
  | nil => simp [grabNameWord] at h
  | cons c cs =>
    simp only [grabNameWord] at h
    by_cases h1 : isAlphaC c = true
    · rw [if_pos h1] at h
      by_cases h2 : cs.takeWhile (fun d => isAlphaC d || d = rApoC || d = apoC || d = '-') = []
      · rw [if_pos h2] at h; simp at h
      · rw [if_neg h2] at h
        have hw : w = c :: cs.takeWhile (fun d => isAlphaC d || d = rApoC || d = apoC || d = '-') ∧
            r = cs.drop (cs.takeWhile (fun d => isAlphaC d || d = rApoC || d = apoC || d = '-')).length := by
          have := h
          simp at this
          exact ⟨this.1.symm, this.2.symm⟩
        rw [hw.1, hw.2]
        refine ⟨?_, by simp⟩
        have hd := takeWhile_drop_decomp (fun d => isAlphaC d || d = rApoC || d = apoC || d = '-') cs
        rw [List.cons_append]
        exact congrArg (c :: ·) hd
    · rw [if_neg h1] at h; simp at h

theorem takePrefCI_self_append (w r : Str) : takePrefCI w (w ++ r) = some r := by
  induction w with
  | nil => rfl
  | cons c cs ih =>
    show takePrefCI (c :: cs) (c :: (cs ++ r)) = some r
    simp only [takePrefCI, if_pos rfl]
    exact ih

theorem matchSurnameCoach_spec {s w rest : Str} (h : matchSurnameCoach s = some (w, rest)) :
    ∃ r, s = w ++ r ∧ w ≠ [] ∧
      (takeWs1 r).bind (takePrefCI (str "coach")) = some rest ∧ noWordB rest.head? = true := by
  unfold matchSurnameCoach at h
  rcases hg : grabNameWord s with _ | ⟨w0, r0⟩
  · rw [hg] at h; simp at h
  · rw [hg] at h
    dsimp only at h
    rcases hc : (takeWs1 r0).bind (takePrefCI (str "coach")) with _ | rest2
    · rw [hc] at h; simp at h
    · rw [hc] at h
      dsimp only at h
      by_cases hn : noWordB rest2.head? = true
      · rw [if_pos hn] at h
        have hwr : w0 = w ∧ rest2 = rest := by
          have := h; simp at this; exact ⟨this.1, this.2⟩
        obtain ⟨hd, hne⟩ := grabNameWord_decomp hg
        exact ⟨r0, by rw [← hwr.1]; exact hd, by rw [← hwr.1]; exact hne,
          by rw [← hwr.2]; exact hc, by rw [← hwr.2]; exact hn⟩
      · rw [if_neg hn] at h; simp at h

theorem subSurnameCoach_of_match {s w rest : Str} (h : matchSurnameCoach s = some (w, rest)) :
    subSurnameCoach w s = str "Coach" ++ rest := by
  obtain ⟨r, hd, _, hchain, hn⟩ := matchSurnameCoach_spec h
  unfold subSurnameCoach
  rw [hd, takePrefCI_self_append]
  show (match (takeWs1 r).bind (takePrefCI (str "coach")) with
    | some rest2 => if noWordB rest2.head? then str "Coach" ++ rest2 else w ++ r
    | none => w ++ r) = str "Coach" ++ rest
  rw [hchain]
  dsimp only
  rw [if_pos hn]

end RMC

namespace RMC

/-- C8: surname-leak correction.  If the (already stripped) normalized
title starts with `<Word> Coach` and `<Word>` is, case-insensitively, a
substring of or a suffix of the record's username (the email's local
part) or of either email-derived name token, then `<Word>` is removed
from the title, leaving the bare role phrase. -/
theorem c8_surname_leak (title email word rest : Str)
    (hm : matchSurnameCoach (pyStrip title) = some (word, rest))
    (hstrip : pyStrip title = title)
    (hu : localPart email ≠ [])
    (hcond : isSubB (lowerL word) (lowerL (localPart email)) = true ∨
      endsWithB (lowerL (localPart email)) (lowerL word) = true ∨
      isSubB (lowerL word) (lowerL (derive_name_from_email email).1) = true ∨
      endsWithB (lowerL (derive_name_from_email email).1) (lowerL word) = true ∨
      isSubB (lowerL word) (lowerL (derive_name_from_email email).2) = true ∨
      endsWithB (lowerL (derive_name_from_email email).2) (lowerL word) = true) :
    surnameLeakStep title (localPart email) (derive_name_from_email email).1
      (derive_name_from_email email).2 = str "Coach" ++ rest := by
  have hsub : isSubB (lowerL word) (lowerL (localPart email)) = true := by
    rcases hcond with h | h | h | h | h | h
    · exact h
    · exact endsWithB_isSubB h
    · exact isSubB_trans h (derive_sub_local email).1
    · exact isSubB_trans (endsWithB_isSubB h) (derive_sub_local email).1
    · exact isSubB_trans h (derive_sub_local email).2
    · exact isSubB_trans (endsWithB_isSubB h) (derive_sub_local email).2
  obtain ⟨r, _, hwne, _, _⟩ := matchSurnameCoach_spec hm
  unfold surnameLeakStep
  rw [hm]
  dsimp only
  rw [if_pos (decide_eq_true (Or.inl ⟨hwne, hu, Or.inl hsub⟩))]
  rw [hstrip] at hm
  exact subSurnameCoach_of_match hm

/-- Witness for C8 at the spec's own instance: title `"Smith Coach"`
with username `"jsmith"` is corrected to `"Coach"`. -/
theorem c8_surname_leak_witness :
    surnameLeakStep (str "Smith Coach") (localPart (str "jsmith@rowan.edu"))
      (derive_name_from_email (str "jsmith@rowan.edu")).1
      (derive_name_from_email (str "jsmith@rowan.edu")).2 = str "Coach" ++ [] :=
  c8_surname_leak (str "Smith Coach") (str "jsmith@rowan.edu") (str "Smith") []
    (by decide) (by decide) (by decide) (Or.inl (by decide))

end RMC

namespace RMC

theorem pass1Go_all (lines : List Str) (area : Option Str) (P : Entry → Prop)
    (hP : ∀ i line st em sct, P (pass1Entry lines area i line st em sct)) :
    ∀ todo i sect e, e ∈ pass1Go lines area i todo sect → P e := by
  intro todo
  induction todo with
  | nil => intro i sect e he; simp [pass1Go] at he
  | cons line rest ih =>
    intro i sect e he
    simp only [pass1Go] at he
    by_cases h1 : isSportHeader (pyStrip line) = true
    · rw [if_pos h1] at he
      exact ih _ _ e he
    · rw [if_neg h1] at he
      rcases hm : findEmailMatch line with _ | ⟨st, em⟩
      · rw [hm] at he
        exact ih _ _ e he
      · rw [hm] at he
        dsimp only at he
        by_cases h2 : isSubB (str "coach") (lowerL line) = true
        · rw [if_pos h2] at he
          rcases List.mem_cons.mp he with he | he
          · rw [he]; exact hP _ _ _ _ _
          · exact ih _ _ e he
        · rw [if_neg h2] at he
          exact ih _ _ e he

theorem pass2Go_all (lines : List Str) (area : Option Str) (P : Entry → Prop)
    (hP : ∀ ct cn em ph, P (pass2Entry ct cn em ph)) :
    ∀ todo i e, e ∈ pass2Go lines area i todo → P e := by
  intro todo
  induction todo with
  | nil => intro i e he; simp [pass2Go] at he
  | cons line rest ih =>
    intro i e he
    simp only [pass2Go] at he
    rcases hm : findEmailMatch line with _ | ⟨st, em⟩
    · rw [hm] at he
      exact ih _ e he
    · rw [hm] at he
      dsimp only at he
      by_cases h2 : (pass2FindTitle lines i).1 ≠ [] ∧
          isSubB (str "coach") (lowerL (pass2FindTitle lines i).1) = true
      · rw [if_pos h2] at he
        rcases List.mem_cons.mp he with he | he
        · rw [he]; exact hP _ _ _ _
        · exact ih _ e he
      · rw [if_neg h2] at he
        exact ih _ e he

theorem pass3Go_all (lines : List Str) (P : Entry → Prop)
    (hP1 : ∀ line em eidx t, P (pass3Entry lines line em eidx t))
    (hP2 : ∀ line t, P (pass3NoEmailEntry line t)) :
    ∀ todo i se sf e, e ∈ pass3Go lines i todo se sf → P e := by
  intro todo
  induction todo with
  | nil => intro i se sf e he; simp [pass3Go] at he
  | cons line rest ih =>
    intro i se sf e he
    simp only [pass3Go] at he
    by_cases h1 : (!isSubB (str "coach") (lowerL line)) = true
    · rw [if_pos h1] at he
      exact ih _ _ _ e he
    · rw [if_neg h1] at he
      by_cases h2 : sf.contains (pyStrip line) = true
      · rw [if_pos h2] at he
        exact ih _ _ _ e he
      · rw [if_neg h2] at he
        rcases hw : windowFindEmail lines i line with _ | ⟨em, eidx⟩
        · rw [hw] at he
          dsimp only at he
          rcases List.mem_cons.mp he with he | he
          · rw [he]; exact hP2 _ _
          · exact ih _ _ _ e he
        · rw [hw] at he
          dsimp only at he
          by_cases h3 : (!se.contains em) = true
          · rw [if_pos h3] at he
            rcases List.mem_cons.mp he with he | he
            · rw [he]; exact hP1 _ _ _ _
            · exact ih _ _ _ e he
          · rw [if_neg h3] at he
            rcases List.mem_cons.mp he with he | he
            · rw [he]; exact hP2 _ _
            · exact ih _ _ _ e he

theorem stage12_all (lines : List Str) (area : Option Str) (P : Entry → Prop)
    (hP1 : ∀ i line st em sct, P (pass1Entry lines area i line st em sct))
    (hP2 : ∀ ct cn em ph, P (pass2Entry ct cn em ph)) :
    ∀ e, e ∈ stage12 lines area → P e := by
  intro e he
  unfold stage12 at he
  by_cases h : pass1 lines area = []
  · rw [if_pos h] at he
    exact pass2Go_all lines area P hP2 _ _ e he
  · rw [if_neg h] at he
    exact pass1Go_all lines area P hP1 _ _ _ e he

theorem parse_pdf_all (text : Str) (P : Entry → Prop)
    (hP1 : ∀ i line st em sct,
      P (pass1Entry (splitLinesPy text) (detectAreaCode text) i line st em sct))
    (hP2 : ∀ ct cn em ph, P (pass2Entry ct cn em ph))
    (hP3 : ∀ line em eidx t, P (pass3Entry (splitLinesPy text) line em eidx t))
    (hP4 : ∀ line t, P (pass3NoEmailEntry line t)) :
    ∀ e, e ∈ parse_pdf text → ∃ e0, e = postStep e0 ∧ P e0 := by
  intro e he
  unfold parse_pdf at he
  rw [List.mem_map] at he
  obtain ⟨e0, he0, rfl⟩ := he
  refine ⟨e0, rfl, ?_⟩
  rcases List.mem_append.mp he0 with h | h
  · exact stage12_all _ _ P hP1 hP2 e0 h
  · exact pass3Go_all _ P hP3 hP4 _ _ _ _ e0 h

theorem postStep_email (e : Entry) : (postStep e).email = e.email := by
  unfold postStep
  dsimp only
  split
  · split
    · split
      · rfl
      · rfl
    · rfl
  · rfl

theorem postStep_role (e : Entry) : (postStep e).role = e.role := by
  unfold postStep
  dsimp only
  split
  · split
    · split
      · rfl
      · rfl
    · rfl
  · rfl

theorem postStep_title (e : Entry) : (postStep e).title = e.title := by
  unfold postStep
  dsimp only
  split
  · split
    · split
      · rfl
      · rfl
    · rfl
  · rfl

theorem postStep_username_of_email (e : Entry) (h : e.email ≠ []) :
    (postStep e).username = e.username := by
  unfold postStep
  dsimp only
  rw [if_neg (show ¬((trimNames e).email = []) from h)]
  rfl

theorem postStep_uploadable_of_true (e : Entry) (h : e.uploadable = true) :
    (postStep e).uploadable = true := by
  unfold postStep
  dsimp only
  split
  · split
    · split
      · show (if (trimNames e).uploadable = false then true else (trimNames e).uploadable) = true
        simp [show (trimNames e).uploadable = true from h]
      · exact h
    · exact h
  · exact h

end RMC

namespace RMC

theorem pass1Entry_role_title (lines : List Str) (area : Option Str) (i : Nat) (line : Str)
    (st : Nat) (em : Str) (sct : Option Str) :
    (pass1Entry lines area i line st em sct).role = (pass1Entry lines area i line st em sct).title := rfl

theorem pass1Entry_username (lines : List Str) (area : Option Str) (i : Nat) (line : Str)
    (st : Nat) (em : Str) (sct : Option Str) :
    (pass1Entry lines area i line st em sct).username = localPart em ∧
    (pass1Entry lines area i line st em sct).email = em ∧
    (pass1Entry lines area i line st em sct).uploadable = true := ⟨rfl, rfl, rfl⟩

theorem pass2Entry_facts (ct cn em : Str) (ph : Option Str) :
    (pass2Entry ct cn em ph).role = (pass2Entry ct cn em ph).title ∧
    (pass2Entry ct cn em ph).username = localPart em ∧
    (pass2Entry ct cn em ph).email = em ∧
    (pass2Entry ct cn em ph).uploadable = true := ⟨rfl, rfl, rfl, rfl⟩

theorem pass3Entry_facts (lines : List Str) (line em : Str) (eidx : Nat) (t : Str) :
    (pass3Entry lines line em eidx t).role = (pass3Entry lines line em eidx t).title ∧
    (pass3Entry lines line em eidx t).username = localPart em ∧
    (pass3Entry lines line em eidx t).email = em ∧
    (pass3Entry lines line em eidx t).uploadable = true := ⟨rfl, rfl, rfl, rfl⟩

theorem pass3NoEmailEntry_facts (line t : Str) :
    (pass3NoEmailEntry line t).role = (pass3NoEmailEntry line t).title ∧
    (pass3NoEmailEntry line t).username = [] ∧
    (pass3NoEmailEntry line t).email = [] ∧
    (pass3NoEmailEntry line t).uploadable = false := ⟨rfl, rfl, rfl, rfl⟩

end RMC

namespace RMC
theorem trimNames_fields (e : Entry) :
    (trimNames e).email = e.email ∧ (trimNames e).username = e.username ∧
    (trimNames e).first_name = pyStrip e.first_name ∧
    (trimNames e).last_name = pyStrip e.last_name ∧
    (trimNames e).uploadable = e.uploadable := ⟨rfl, rfl, rfl, rfl, rfl⟩

theorem postStep_eq_of_header (e0 : Entry) (hem : e0.email = [])
    (hh : headerLikeE (trimNames e0) = true) : postStep e0 = trimNames e0 := by
  unfold postStep
  dsimp only
  rw [if_pos (show (trimNames e0).email = [] from hem)]
  rw [if_neg (fun hc => by simp [hh] at hc)]

theorem postStep_eq_of_nouname (e0 : Entry) (hem : e0.email = []) (_hun : e0.username = [])
    (hb : build_username_from_name (pyStrip e0.first_name) (pyStrip e0.last_name) = []) :
    postStep e0 = trimNames e0 := by
  unfold postStep
  dsimp only
  rw [if_pos (show (trimNames e0).email = [] from hem)]
  by_cases hh : (trimNames e0).username = [] ∧ (!headerLikeE (trimNames e0)) = true
  · rw [if_pos hh]
    rw [if_neg (by simpa using hb)]
  · rw [if_neg hh]

theorem postStep_eq_of_uname (e0 : Entry) (hem : e0.email = []) (hun : e0.username = [])
    (hh : headerLikeE (trimNames e0) = false)
    (hb : build_username_from_name (pyStrip e0.first_name) (pyStrip e0.last_name) ≠ []) :
    (postStep e0).uploadable = true := by
  unfold postStep
  dsimp only
  rw [if_pos (show (trimNames e0).email = [] from hem)]
  rw [if_pos ⟨show (trimNames e0).username = [] from hun, by simp [hh]⟩]
  rw [if_pos (by simpa using hb)]
  show (if (trimNames e0).uploadable = false then true else (trimNames e0).uploadable) = true
  split
  · rfl
  · rename_i hq
    cases hx : (trimNames e0).uploadable with
    | false => exact absurd hx hq
    | true => rfl
end RMC

namespace RMC

theorem postStep_uploadable_false_inv (e : Entry) (hf : (postStep e).uploadable = false) :
    e.uploadable = false := by
  cases hu : e.uploadable with
  | false => rfl
  | true =>
    rw [postStep_uploadable_of_true e hu] at hf
    exact absurd hf (by decide)

/-- C3 (counterexample): the document `"Coaches John Smith"` yields one
record that is not uploadable although it has a synthesizable username
(`build_username_from_name` of its name fields is `"john.smith"`, not
empty), contradicting the claim as stated. -/
theorem c3_counterexample :
    (parse_pdf (str "Coaches John Smith")).map
      (fun e => (e.uploadable, e.email, build_username_from_name e.first_name e.last_name)) =
    [(false, [], str "john.smith")] := by decide

/-- C3 (amended): a post-processed record has `uploadable = false` only
when it has no email and either is header-like (its provenance contains
"coaching staff" or starts with "coaches", or its display name is one of
"", "staff", "coaches", "coaching") or no username can be synthesized
from its name fields. -/
theorem c3_uploadable_amended (text : Str) (e : Entry) (he : e ∈ parse_pdf text)
    (hf : e.uploadable = false) :
    e.email = [] ∧ (headerLikeE e = true ∨
      build_username_from_name e.first_name e.last_name = []) := by
  obtain ⟨e0, rfl, h0⟩ := parse_pdf_all text
    (fun x => x.uploadable = false → (x.email = [] ∧ x.username = []))
    (fun i line st em sct h =>
      absurd ((pass1Entry_username _ _ i line st em sct).2.2.symm.trans h) (by decide))
    (fun ct cn em ph h =>
      absurd ((pass2Entry_facts ct cn em ph).2.2.2.symm.trans h) (by decide))
    (fun line em eidx t h =>
      absurd ((pass3Entry_facts _ line em eidx t).2.2.2.symm.trans h) (by decide))
    (fun line t _ =>
      ⟨(pass3NoEmailEntry_facts line t).2.2.1, (pass3NoEmailEntry_facts line t).2.1⟩)
    e he
  have h0f : e0.uploadable = false := postStep_uploadable_false_inv e0 hf
  obtain ⟨hem, hun⟩ := h0 h0f
  by_cases hh : headerLikeE (trimNames e0) = true
  · rw [postStep_eq_of_header e0 hem hh]
    exact ⟨hem, Or.inl hh⟩
  · have hhf : headerLikeE (trimNames e0) = false := by
      cases hx : headerLikeE (trimNames e0) with
      | true => exact absurd hx hh
      | false => rfl
    by_cases hb : build_username_from_name (pyStrip e0.first_name) (pyStrip e0.last_name) = []
    · rw [postStep_eq_of_nouname e0 hem hun hb]
      exact ⟨hem, Or.inr hb⟩
    · exfalso
      have ht := postStep_eq_of_uname e0 hem hun hhf hb
      rw [ht] at hf
      exact absurd hf (by decide)

/-- Witness for the amended C3 on the counterexample document. -/
theorem c3_uploadable_amended_witness :
    (⟨str "John", str "Smith", [], [], str "Coaches John Smith", str "coach", str "coach",
      none, false, none⟩ : Entry).email = [] ∧
    (headerLikeE ⟨str "John", str "Smith", [], [], str "Coaches John Smith", str "coach",
      str "coach", none, false, none⟩ = true ∨
     build_username_from_name (str "John") (str "Smith") = []) :=
  c3_uploadable_amended (str "Coaches John Smith")
    ⟨str "John", str "Smith", [], [], str "Coaches John Smith", str "coach", str "coach",
      none, false, none⟩ (by decide) (by decide)

end RMC

namespace RMC

/-- C10: every record emitted by any of the three extraction passes sets
`role` and `title` to the same string, and every later step of the
cascade and the post-processor preserves the equality. -/
theorem c10_role_title (text : Str) (e : Entry) (he : e ∈ parse_pdf text) :
    e.role = e.title := by
  obtain ⟨e0, rfl, h0⟩ := parse_pdf_all text (fun x => x.role = x.title)
    (fun i line st em sct => pass1Entry_role_title _ _ i line st em sct)
    (fun ct cn em ph => (pass2Entry_facts ct cn em ph).1)
    (fun line em eidx t => (pass3Entry_facts _ line em eidx t).1)
    (fun line t => (pass3NoEmailEntry_facts line t).1) e he
  rw [postStep_role, postStep_title]
  exact h0

/-- Witness for C10 on a concrete single-line document. -/
theorem c10_role_title_witness :
    (⟨str "Smith", [], str "s@x.co", str "s", str "Smith Coach s@x.co", str "Coach",
      str "Coach", none, true, none⟩ : Entry).role =
    (⟨str "Smith", [], str "s@x.co", str "s", str "Smith Coach s@x.co", str "Coach",
      str "Coach", none, true, none⟩ : Entry).title :=
  c10_role_title (str "Smith Coach s@x.co")
    ⟨str "Smith", [], str "s@x.co", str "s", str "Smith Coach s@x.co", str "Coach",
      str "Coach", none, true, none⟩ (by decide)

/-- C9: every record emitted with a non-empty email has a username equal
to the email's local part (the text before the `@`). -/
theorem c9_username_email (text : Str) (e : Entry) (he : e ∈ parse_pdf text)
    (hne : e.email ≠ []) : e.username = localPart e.email := by
  obtain ⟨e0, rfl, h0⟩ := parse_pdf_all text
    (fun x => x.email ≠ [] → x.username = localPart x.email)
    (fun i line st em sct _ =>
      ((pass1Entry_username _ _ i line st em sct).1).trans
        (congrArg localPart ((pass1Entry_username _ _ i line st em sct).2.1).symm))
    (fun ct cn em ph _ =>
      ((pass2Entry_facts ct cn em ph).2.1).trans
        (congrArg localPart ((pass2Entry_facts ct cn em ph).2.2.1).symm))
    (fun line em eidx t _ =>
      ((pass3Entry_facts _ line em eidx t).2.1).trans
        (congrArg localPart ((pass3Entry_facts _ line em eidx t).2.2.1).symm))
    (fun line t h => absurd (pass3NoEmailEntry_facts line t).2.2.1 h) e he
  have hne0 : e0.email ≠ [] := by
    rw [postStep_email] at hne
    exact hne
  rw [postStep_email, postStep_username_of_email e0 hne0]
  exact h0 hne0

/-- Witness for C9 on a concrete single-line document. -/
theorem c9_username_email_witness :
    (⟨str "Smith", [], str "s@x.co", str "s", str "Smith Coach s@x.co", str "Coach",
      str "Coach", none, true, none⟩ : Entry).username =
    localPart (⟨str "Smith", [], str "s@x.co", str "s", str "Smith Coach s@x.co",
      str "Coach", str "Coach", none, true, none⟩ : Entry).email :=
  c9_username_email (str "Smith Coach s@x.co")
    ⟨str "Smith", [], str "s@x.co", str "s", str "Smith Coach s@x.co", str "Coach",
      str "Coach", none, true, none⟩ (by decide) (by decide)

end RMC

namespace RMC

theorem contains_mem_bridge (se : List Str) (em : Str) (h : (!se.contains em) = true) :
    em ∉ se := by
  simp at h
  exact h

theorem pass3Go_fresh (lines : List Str) :
    ∀ todo i se sf,
      (∀ e ∈ pass3Go lines i todo se sf, e.email ≠ [] → e.email ∉ se) ∧
      ((pass3Go lines i todo se sf).map (fun e => e.email)).Pairwise
        (fun a b => a = [] ∨ b = [] ∨ a ≠ b) := by
  intro todo
  induction todo with
  | nil =>
    intro i se sf
    refine ⟨?_, ?_⟩
    · intro e he
      simp [pass3Go] at he
    · simp [pass3Go]
  | cons line rest ih =>
    intro i se sf
    by_cases h1 : (!isSubB (str "coach") (lowerL line)) = true
    · simp only [pass3Go, if_pos h1]
      exact ih _ _ _
    · by_cases h2 : sf.contains (pyStrip line) = true
      · simp only [pass3Go, if_neg h1, if_pos h2]
        exact ih _ _ _
      · simp only [pass3Go, if_neg h1, if_neg h2]
        rcases hw : windowFindEmail lines i line with _ | ⟨em, eidx⟩
        · dsimp only
          refine ⟨?_, ?_⟩
          · intro e he hne
            rcases List.mem_cons.mp he with he | he
            · exact absurd ((he ▸ pass3NoEmailEntry_facts line _).2.2.1) hne
            · exact (ih _ _ _).1 e he hne
          · rw [List.map_cons]
            refine List.pairwise_cons.mpr ⟨?_, (ih _ _ _).2⟩
            intro b _
            exact Or.inl (pass3NoEmailEntry_facts line _).2.2.1
        · dsimp only
          by_cases h3 : (!se.contains em) = true
          · rw [if_pos h3]
            refine ⟨?_, ?_⟩
            · intro e he hne
              rcases List.mem_cons.mp he with he | he
              · rw [he, (pass3Entry_facts lines line em eidx _).2.2.1]
                exact contains_mem_bridge se em h3
              · have h := (ih _ _ _).1 e he hne
                exact fun hm => h (List.mem_cons_of_mem _ hm)
            · rw [List.map_cons]
              refine List.pairwise_cons.mpr ⟨?_, (ih _ _ _).2⟩
              intro b hb
              obtain ⟨e2, he2, rfl⟩ := List.mem_map.mp hb
              by_cases hb2 : e2.email = []
              · exact Or.inr (Or.inl hb2)
              · have h := (ih _ _ _).1 e2 he2 hb2
                refine Or.inr (Or.inr ?_)
                rw [(pass3Entry_facts lines line em eidx _).2.2.1]
                intro hEq
                exact h (hEq ▸ List.mem_cons_self em se)
          · rw [if_neg h3]
            refine ⟨?_, ?_⟩
            · intro e he hne
              rcases List.mem_cons.mp he with he | he
              · exact absurd ((he ▸ pass3NoEmailEntry_facts line _).2.2.1) hne
              · exact (ih _ _ _).1 e he hne
            · rw [List.map_cons]
              refine List.pairwise_cons.mpr ⟨?_, (ih _ _ _).2⟩
              intro b _
              exact Or.inl (pass3NoEmailEntry_facts line _).2.2.1

end RMC

namespace RMC

/-- Passes 1-2 of the cascade, as a function of the document text. -/
def stageOfText (text : Str) : List Entry :=
  stage12 (splitLinesPy text) (detectAreaCode text)

/-- The window-augmentation pass of the cascade, as a function of the
document text, seeded with the seen sets of the earlier passes. -/
def pass3OfText (text : Str) : List Entry :=
  pass3 (splitLinesPy text) (seenEmails0 (stageOfText text)) (seenFull0 (stageOfText text))

/-- C2 counterexample: on a document whose two lines each carry the same
email, the single-line pass emits two records with that (non-empty)
email, so the cascade output does repeat an email across records. -/
theorem c2_counterexample :
    ((parse_pdf (str "Smith Coach s@x.co\nSmith Coach s@x.co")).map (fun e => e.email))
      = [str "s@x.co", str "s@x.co"] ∧ str "s@x.co" ≠ ([] : Str) := by
  decide

/-- C2 (amended): re-running the cascade is deterministic (`parse_pdf` is
the post-processed concatenation of the stage-1/2 output with the window
pass), and the de-duplication holds across passes: the window pass never
emits a non-empty email twice, and never reuses an email already used by
an earlier pass.  (Within pass 1 alone an email can repeat, as the
counterexample shows.) -/
theorem c2_email_dedup_amended (text : Str) :
    parse_pdf text = ((stageOfText text) ++ (pass3OfText text)).map postStep ∧
    ((pass3OfText text).map (fun e => e.email)).Pairwise
      (fun a b => a = [] ∨ b = [] ∨ a ≠ b) ∧
    ∀ e ∈ pass3OfText text, e.email ≠ [] →
      e.email ∉ seenEmails0 (stageOfText text) := by
  refine ⟨rfl, ?_, ?_⟩
  · exact (pass3Go_fresh (splitLinesPy text) (splitLinesPy text) 0
      (seenEmails0 (stageOfText text)) (seenFull0 (stageOfText text))).2
  · intro e he hne
    exact (pass3Go_fresh (splitLinesPy text) (splitLinesPy text) 0
      (seenEmails0 (stageOfText text)) (seenFull0 (stageOfText text))).1 e he hne

/-- Witness for the amended C2: on a concrete three-line document the
window pass emits a record whose email is fresh with respect to the
single-line pass. -/
theorem c2_email_dedup_amended_witness :
    str "c@d.co" ∉ seenEmails0 (stageOfText (str "Smith Coach\nc@d.co\nAnn Bee Coach a@b.co")) :=
  (c2_email_dedup_amended (str "Smith Coach\nc@d.co\nAnn Bee Coach a@b.co")).2.2
    ⟨str "C", [], str "c@d.co", str "c", str "Smith Coach c@d.co", str "Smith Coach",
      str "Smith Coach", none, true, none⟩ (by decide) (by decide)

end RMC

namespace RMC

theorem getD_mem_or_nil : ∀ (lines : List Str) (n : Nat),
    lines.getD n [] ∈ lines ∨ lines.getD n [] = []
  | [], n => Or.inr (by cases n <;> rfl)
  | _ :: _, 0 => Or.inl (List.mem_cons_self _ _)
  | l :: ls, n + 1 =>
    match getD_mem_or_nil ls n with
    | Or.inl h => Or.inl (List.mem_cons_of_mem l h)
    | Or.inr h => Or.inr h

/-- If a sublist of `lowerL (pyStrip l)` occurs, it occurs in `lowerL l`. -/
theorem isSubB_lower_pyStrip {k l : Str} (h : isSubB k (lowerL (pyStrip l)) = true) :
    isSubB k (lowerL l) = true :=
  isSubB_trans h (isSubB_map lowerC (isSubB_pyStrip l))

/-- Pass-1 completeness: a non-header line carrying both an email and the
word "coach" forces the single-line pass to emit at least one record. -/
theorem pass1Go_ne_nil (lines : List Str) (area : Option Str) :
    ∀ todo i sect line, line ∈ todo →
      isSubB (str "coach") (lowerL line) = true →
      findEmailMatch line ≠ none →
      isSportHeader (pyStrip line) = false →
      pass1Go lines area i todo sect ≠ [] := by
  intro todo
  induction todo with
  | nil =>
    intro i sect line hmem
    simp at hmem
  | cons hd rest ih =>
    intro i sect line hmem hc he hh
    simp only [pass1Go]
    by_cases h1 : isSportHeader (pyStrip hd) = true
    · rw [if_pos h1]
      rcases List.mem_cons.mp hmem with rfl | hmem
      · rw [hh] at h1
        simp at h1
      · exact ih _ _ line hmem hc he hh
    · rw [if_neg h1]
      rcases hm : findEmailMatch hd with _ | ⟨st, em⟩
      · dsimp only
        rcases List.mem_cons.mp hmem with rfl | hmem
        · exact absurd hm he
        · exact ih _ _ line hmem hc he hh
      · dsimp only
        by_cases h2 : isSubB (str "coach") (lowerL hd) = true
        · rw [if_pos h2]
          exact List.cons_ne_nil _ _
        · rw [if_neg h2]
          rcases List.mem_cons.mp hmem with rfl | hmem
          · exact absurd hc h2
          · exact ih _ _ line hmem hc he hh

/-- When no line mentions "coach", the backward title search of the
multi-line pass finds nothing. -/
theorem pass2FindTitle_nil (lines : List Str) (i : Nat)
    (h : ∀ line ∈ lines, isSubB (str "coach") (lowerL line) = false) :
    pass2FindTitle lines i = ([], []) := by
  have hj : ∀ j : Nat,
      isSubB (str "coach") (lowerL (pyStrip (lines.getD (i - j) []))) = false := by
    intro j
    rcases getD_mem_or_nil lines (i - j) with hm | hnil
    · by_contra hc
      rw [Bool.not_eq_false] at hc
      have h2 := isSubB_lower_pyStrip hc
      rw [h _ hm] at h2
      simp at h2
    · rw [hnil]
      decide
  unfold pass2FindTitle
  have hstep : ∀ j, (if i < j then none
      else
        let prev := pyStrip (lines.getD (i - j) [])
        if isSubB (str "coach") (lowerL prev) then
          let nm :=
            if j + 1 ≤ i then
              let potential := pyStrip (lines.getD (i - j - 1) [])
              if potential ≠ [] ∧ (findEmailMatch potential) = none ∧
                  !pass2Keywords.any (fun k => isSubB k (lowerL potential)) ∧
                  2 ≤ (splitWs potential).length then
                potential
              else []
            else []
          some (prev, nm)
        else none) = (none : Option (Str × Str)) := by
    intro j
    by_cases hij : i < j
    · rw [if_pos hij]
    · rw [if_neg hij]
      dsimp only
      rw [if_neg]
      rw [hj j]
      simp
  show (firstSome _ [1, 2, 3]).getD ([], []) = ([], [])
  unfold firstSome
  rw [hstep 1]
  unfold firstSome
  rw [hstep 2]
  unfold firstSome
  rw [hstep 3]
  rfl

/-- When no line mentions "coach", the multi-line pass emits nothing. -/
theorem pass2Go_nil (lines : List Str) (area : Option Str)
    (h : ∀ line ∈ lines, isSubB (str "coach") (lowerL line) = false) :
    ∀ todo i, pass2Go lines area i todo = [] := by
  intro todo
  induction todo with
  | nil => intro i; rfl
  | cons hd rest ih =>
    intro i
    simp only [pass2Go]
    rcases hm : findEmailMatch hd with _ | ⟨st, em⟩
    · dsimp only
      exact ih _
    · dsimp only
      rw [pass2FindTitle_nil lines i h]
      rw [if_neg (fun hcon => hcon.1 rfl)]
      exact ih _

end RMC

namespace RMC

/-- C7 counterexample: in this two-line document every line containing
"coach" (namely the sport-header line) carries an email, yet the
single-line pass emits nothing — the header line is skipped as a sport
header — and the multi-line pass does contribute a record. -/
theorem c7_counterexample :
    (∀ line ∈ splitLinesPy (str "BASKETBALL COACHES (x@y.co)\njane z@w.co"),
      isSubB (str "coach") (lowerL line) = true → findEmailMatch line ≠ none) ∧
    pass1 (splitLinesPy (str "BASKETBALL COACHES (x@y.co)\njane z@w.co"))
      (detectAreaCode (str "BASKETBALL COACHES (x@y.co)\njane z@w.co")) = [] ∧
    pass2 (splitLinesPy (str "BASKETBALL COACHES (x@y.co)\njane z@w.co"))
      (detectAreaCode (str "BASKETBALL COACHES (x@y.co)\njane z@w.co")) ≠ [] := by
  decide

/-- C7 (amended): the multi-line pass runs only when the single-line pass
produced zero records, and for any document in which every line carrying
the word "coach" has an email AND is not a sport-section header, the
stage-1/2 output is exactly the single-line pass output (the multi-line
pass contributes nothing), after which the window pass always runs. -/
theorem c7_pass_order_amended (text : Str)
    (h : ∀ line ∈ splitLinesPy text, isSubB (str "coach") (lowerL line) = true →
      findEmailMatch line ≠ none ∧ isSportHeader (pyStrip line) = false) :
    stageOfText text = pass1 (splitLinesPy text) (detectAreaCode text) ∧
    parse_pdf text = (pass1 (splitLinesPy text) (detectAreaCode text) ++
      pass3OfText text).map postStep := by
  have hstage : stageOfText text = pass1 (splitLinesPy text) (detectAreaCode text) := by
    unfold stageOfText stage12
    dsimp only
    by_cases hp : pass1 (splitLinesPy text) (detectAreaCode text) = []
    · rw [if_pos hp, hp]
      apply pass2Go_nil
      intro line hmem
      by_contra hc
      rw [Bool.not_eq_false] at hc
      obtain ⟨he, hh⟩ := h line hmem hc
      exact (pass1Go_ne_nil (splitLinesPy text) (detectAreaCode text)
        (splitLinesPy text) 0 none line hmem hc he hh) hp
    · rw [if_neg hp]
  refine ⟨hstage, ?_⟩
  have hsplit : parse_pdf text = ((stageOfText text) ++ pass3OfText text).map postStep := rfl
  rw [hsplit, hstage]

/-- Witness for the amended C7 on a one-line document whose only coach
line carries an email and is no sport header. -/
theorem c7_pass_order_amended_witness :
    stageOfText (str "Ann Bee Coach a@b.co") =
      pass1 (splitLinesPy (str "Ann Bee Coach a@b.co"))
        (detectAreaCode (str "Ann Bee Coach a@b.co")) :=
  (c7_pass_order_amended (str "Ann Bee Coach a@b.co") (by decide)).1

end RMC

namespace RMC

/-- The scan-order property actually implemented by the nearby-line loop:
the hit offset `d` is valid, lands on line `j`, whose email match yields
`em`, and every offset tried earlier in the list is invalid or lands on a
line with no email match. -/
def firstHitAt (lines : List Str) (i : Nat) (em : Str) (j : Nat)
    (ds1 : List Int) (d : Int) : Prop :=
  ¬(d = 0 ∨ (i : Int) + d < 0 ∨ (lines.length : Int) ≤ (i : Int) + d) ∧
  j = ((i : Int) + d).toNat ∧
  (∃ st, findEmailMatch (lines.getD j []) = some (st, em)) ∧
  ∀ d' ∈ ds1, (d' = 0 ∨ (i : Int) + d' < 0 ∨ (lines.length : Int) ≤ (i : Int) + d') ∨
    findEmailMatch (lines.getD ((i : Int) + d').toNat []) = none

theorem windowLoop_first (lines : List Str) (i : Nat) :
    ∀ ds em j, windowLoop lines i ds = some (em, j) →
      ∃ ds1 d ds2, ds = ds1 ++ d :: ds2 ∧ firstHitAt lines i em j ds1 d := by
  intro ds
  induction ds with
  | nil =>
    intro em j h
    simp [windowLoop] at h
  | cons d rest ih =>
    intro em j h
    simp only [windowLoop] at h
    by_cases h1 : d = 0 ∨ (i : Int) + d < 0 ∨ (lines.length : Int) ≤ (i : Int) + d
    · rw [if_pos h1] at h
      obtain ⟨ds1, d0, ds2, hds, hfa⟩ := ih em j h
      refine ⟨d :: ds1, d0, ds2, by rw [hds, List.cons_append], hfa.1, hfa.2.1, hfa.2.2.1, ?_⟩
      intro d2 hd2
      rcases List.mem_cons.mp hd2 with rfl | hd2
      · exact Or.inl h1
      · exact hfa.2.2.2 d2 hd2
    · rw [if_neg h1] at h
      rcases hm : findEmailMatch (lines.getD ((i : Int) + d).toNat []) with _ | ⟨st, em0⟩
      · rw [hm] at h
        dsimp only at h
        obtain ⟨ds1, d0, ds2, hds, hfa⟩ := ih em j h
        refine ⟨d :: ds1, d0, ds2, by rw [hds, List.cons_append], hfa.1, hfa.2.1, hfa.2.2.1, ?_⟩
        intro d2 hd2
        rcases List.mem_cons.mp hd2 with rfl | hd2
        · exact Or.inr hm
        · exact hfa.2.2.2 d2 hd2
      · rw [hm] at h
        dsimp only at h
        rcases h with ⟨rfl, rfl⟩
        exact ⟨[], d, rest, rfl, h1, rfl, ⟨st, hm⟩, by intro d2 hd2; simp at hd2⟩

end RMC

namespace RMC

/-- C1 counterexample: the coach line (index 6) has an email one line
away (index 5), but the window scan attributes the email of line 0, six
lines away — the first hit in ascending offset order, not the nearest. -/
theorem c1_counterexample :
    findEmailMatch ((splitLinesPy (str "a@b.co\n\n\n\n\nc@d.co\nSmith Coach")).getD 5 [])
      ≠ none ∧
    windowFindEmail (splitLinesPy (str "a@b.co\n\n\n\n\nc@d.co\nSmith Coach")) 6
      ((splitLinesPy (str "a@b.co\n\n\n\n\nc@d.co\nSmith Coach")).getD 6 [])
      = some (str "a@b.co", 0) ∧
    (parse_pdf (str "a@b.co\n\n\n\n\nc@d.co\nSmith Coach")).map (fun e => e.email)
      = [str "a@b.co"] := by
  decide

/-- C1 (amended): the window scan attributes the FIRST email hit in
ascending offset order -8..8 (skipping offset 0 and out-of-range lines),
not the nearest one; and a document whose only email is 6 lines below its
coach line still produces exactly one record with that email. -/
theorem c1_window_amended :
    (∀ lines i ds em j, windowLoop lines i ds = some (em, j) →
      ∃ ds1 d ds2, ds = ds1 ++ d :: ds2 ∧ firstHitAt lines i em j ds1 d) ∧
    (parse_pdf (str "Smith Coach\n\n\n\n\n\na@b.co")).map (fun e => e.email)
      = [str "a@b.co"] := by
  refine ⟨?_, by decide⟩
  intro lines i ds em j h
  exact windowLoop_first lines i ds em j h

/-- Witness for the amended C1: the scan on a three-line document with
the coach line at index 0 hits the email on line 2 after skipping the
emailless line 1. -/
theorem c1_window_amended_witness :
    ∃ ds1 d ds2, windowOffsets = ds1 ++ d :: ds2 ∧
      firstHitAt [str "x", [], str "e@f.co"] 0 (str "e@f.co") 2 ds1 d :=
  c1_window_amended.1 [str "x", [], str "e@f.co"] 0 windowOffsets (str "e@f.co") 2
    (by decide)

end RMC

namespace RMC

def blockEmailOk (block : List Str) : Bool := (blockFields block).2.1

/-- C4: a non-empty, non-skipped report block passes `validate_block`
exactly when it has a non-empty name, username and title — with an email
required only in the (already failing) username-absent case — and in
particular the name+title-only block fails while the
name+username+title block with no email passes, at the block level and
through `validate_txt_file`. -/
theorem c4_validator (block : List Str) (hne : block ≠ [])
    (hskip : blockSkipped block = false) :
    (blockIssue block = false ↔
      (blockNameOk block = true ∧ blockUsernameOk block = true ∧
       blockTitleOk block = true ∧
       (blockUsernameOk block = true ∨ blockEmailOk block = true))) ∧
    blockIssue [str "1. John Smith", str "   Title: Head Coach"] = true ∧
    blockIssue [str "1. John Smith", str "   Username: jsmith",
      str "   Title: Head Coach"] = false ∧
    blockEmailOk [str "1. John Smith", str "   Username: jsmith",
      str "   Title: Head Coach"] = false ∧
    validate_txt_lines [str "PARSED ENTRIES:", str "----", str "1. John Smith",
      str "   Title: Head Coach"] = (false, 1) ∧
    validate_txt_lines [str "PARSED ENTRIES:", str "----", str "1. John Smith",
      str "   Username: jsmith", str "   Title: Head Coach"] = (true, 0) := by
  refine ⟨?_, by decide, by decide, by decide, by decide, by decide⟩
  have hb : blockIssue block =
      !(blockNameOk block && blockUsernameOk block && blockTitleOk block) := by
    unfold blockIssue
    rw [if_neg hne, hskip]
    simp
  rw [hb]
  rcases hn : blockNameOk block <;> rcases hu : blockUsernameOk block <;>
    rcases ht : blockTitleOk block <;> simp

/-- Witness for C4: the general pass/fail characterization applied to a
concrete three-line block. -/
theorem c4_validator_witness :
    blockIssue [str "1. Ann Bee", str "Username: ab", str "Title: Coach"] = false ↔
      (blockNameOk [str "1. Ann Bee", str "Username: ab", str "Title: Coach"] = true ∧
       blockUsernameOk [str "1. Ann Bee", str "Username: ab", str "Title: Coach"] = true ∧
       blockTitleOk [str "1. Ann Bee", str "Username: ab", str "Title: Coach"] = true ∧
       (blockUsernameOk [str "1. Ann Bee", str "Username: ab", str "Title: Coach"] = true ∨
        blockEmailOk [str "1. Ann Bee", str "Username: ab", str "Title: Coach"] = true)) :=
  (c4_validator [str "1. Ann Bee", str "Username: ab", str "Title: Coach"]
    (by decide) (by decide)).1

end RMC

namespace RMC

/-- C5: the sport classifier never produces the "Field Hockey" tag from a
section label: the track/field rule fires first on the "field" it
contains, so a section label reading "FIELD HOCKEY" is mapped to
"Track & Field" and the dedicated field-hockey branch is unreachable. -/
theorem c5_field_hockey_bug :
    profileSports (some (str "FIELD HOCKEY")) [] none = [str "Track & Field"] ∧
    sectionSports (lowerL (str "FIELD HOCKEY")) = [str "Track & Field"] ∧
    (∀ sect, sectionSports sect ≠ [str "Field Hockey"]) := by
  refine ⟨by decide, by decide, ?_⟩
  intro sect
  have hkey : isSubB (str "field hockey") sect = true →
      (isSubB (str "track") sect || isSubB (str "field") sect) = true := by
    intro h
    have hf := isSubB_trans
      (show isSubB (str "field") (str "field hockey") = true by decide) h
    rw [hf, Bool.or_true]
  unfold sectionSports
  by_cases h1 : isSubB (str "basketball") sect = true
  · rw [if_pos h1]
    by_cases hm : isSubB (str "men") sect = true
    · rw [if_pos hm]; decide
    · rw [if_neg hm]
      by_cases hw : isSubB (str "women") sect = true
      · rw [if_pos hw]; decide
      · rw [if_neg hw]; decide
  · rw [if_neg h1]
    by_cases h2 : isSubB (str "soccer") sect = true
    · rw [if_pos h2]
      by_cases hm : isSubB (str "men") sect = true
      · rw [if_pos hm]; decide
      · rw [if_neg hm]
        by_cases hw : isSubB (str "women") sect = true
        · rw [if_pos hw]; decide
        · rw [if_neg hw]; decide
    · rw [if_neg h2]
      by_cases h3 : isSubB (str "football") sect = true
      · rw [if_pos h3]; decide
      · rw [if_neg h3]
        by_cases h4 : isSubB (str "baseball") sect = true
        · rw [if_pos h4]; decide
        · rw [if_neg h4]
          by_cases h5 : isSubB (str "softball") sect = true
          · rw [if_pos h5]; decide
          · rw [if_neg h5]
            by_cases h6 : isSubB (str "swimming") sect = true
            · rw [if_pos h6]; decide
            · rw [if_neg h6]
              by_cases h7 : (isSubB (str "track") sect || isSubB (str "field") sect) = true
              · rw [if_pos h7]; decide
              · rw [if_neg h7]
                by_cases h8 : isSubB (str "cross country") sect = true
                · rw [if_pos h8]; decide
                · rw [if_neg h8]
                  by_cases h9 : isSubB (str "volleyball") sect = true
                  · rw [if_pos h9]; decide
                  · rw [if_neg h9]
                    by_cases h10 : isSubB (str "lacrosse") sect = true
                    · rw [if_pos h10]
                      by_cases hw : isSubB (str "women") sect = true
                      · rw [if_pos hw]; decide
                      · rw [if_neg hw]; decide
                    · rw [if_neg h10]
                      by_cases h11 : isSubB (str "field hockey") sect = true
                      · exact absurd (hkey h11) h7
                      · rw [if_neg h11]; decide

end RMC

namespace RMC

/-- C6: the phone extractor returns a dotted 10-digit match unchanged,
reformats a 7-digit match to "(AAA) NNN-NNNN" when an area code is
available (inserting a dash into a bare 7-digit number first), and
returns an already-parenthesized match unchanged — on the spec's three
examples and for arbitrary digits in the formatting step. -/
theorem c6_phone_format :
    extract_and_format_phone (str "call 856.256.4687 now") none = some (str "856.256.4687") ∧
    extract_and_format_phone (str "ext 256-4687") (some (str "609"))
      = some (str "(609) 256-4687") ∧
    extract_and_format_phone (str "(609) 256-4687") none = some (str "(609) 256-4687") ∧
    (∀ (area : Str) (d1 d2 d3 d4 d5 d6 d7 d8 d9 d10 : Char),
      isDigitC d1 = true → isDigitC d2 = true → isDigitC d3 = true →
      isDigitC d4 = true → isDigitC d5 = true → isDigitC d6 = true →
      isDigitC d7 = true → isDigitC d8 = true → isDigitC d9 = true →
      isDigitC d10 = true →
      (∀ a : Option Str, formatMatchedPhone
        [d1, d2, d3, '.', d4, d5, d6, '.', d7, d8, d9, d10] a
        = [d1, d2, d3, '.', d4, d5, d6, '.', d7, d8, d9, d10]) ∧
      (area ≠ [] → formatMatchedPhone [d1, d2, d3, '-', d4, d5, d6, d7] (some area)
        = '(' :: area ++ ')' :: ' ' :: [d1, d2, d3, '-', d4, d5, d6, d7]) ∧
      (area ≠ [] → formatMatchedPhone [d1, d2, d3, d4, d5, d6, d7] (some area)
        = '(' :: area ++ ')' :: ' ' :: [d1, d2, d3, '-', d4, d5, d6, d7]) ∧
      (∀ a : Option Str, formatMatchedPhone
        ['(', d1, d2, d3, ')', ' ', d4, d5, d6, '-', d7, d8, d9, d10] a
        = ['(', d1, d2, d3, ')', ' ', d4, d5, d6, '-', d7, d8, d9, d10])) := by
  refine ⟨by decide, by decide, by decide, ?_⟩
  intro area d1 d2 d3 d4 d5 d6 d7 d8 d9 d10 h1 h2 h3 h4 h5 h6 h7 h8 h9 h10
  refine ⟨?_, ?_, ?_, ?_⟩
  · intro a
    simp [formatMatchedPhone, shape7dash, shape7dot, shape7bare, shape334dash,
      shapeSpace334, takeDigits, takeLit, takeWs1,
      h1, h2, h3, h4, h5, h6, h7, h8, h9, h10,
      show isDigitC ('.') = false from by decide,
      show isSpaceC ('.') = false from by decide]
  · intro ha
    have ha2 : areaTruthy (some area) = true := by
      simp only [areaTruthy]
      exact decide_eq_true ha
    simp [formatMatchedPhone, shape7dash, shape7dot, shape7bare, shape334dash,
      shapeSpace334, takeDigits, takeLit, takeWs1, ha2,
      h1, h2, h3, h4, h5, h6, h7,
      show isDigitC ('-') = false from by decide]
  · intro ha
    have ha2 : areaTruthy (some area) = true := by
      simp only [areaTruthy]
      exact decide_eq_true ha
    simp [formatMatchedPhone, shape7dash, shape7dot, shape7bare, shape334dash,
      shapeSpace334, takeDigits, takeLit, takeWs1, ha2,
      h1, h2, h3, h4, h5, h6, h7]
  · intro a
    simp [formatMatchedPhone, shape7dash, shape7dot, shape7bare, shape334dash,
      shapeSpace334, takeDigits, takeLit, takeWs1,
      h1, h2, h3, h4, h5, h6, h7, h8, h9, h10,
      show isDigitC ('(') = false from by decide]

/-- Witness for C6: the general bare-7-digit rule applied at concrete
digits and area code. -/
theorem c6_phone_format_witness :
    formatMatchedPhone (str "2564687") (some (str "609")) = str "(609) 256-4687" :=
  (c6_phone_format.2.2.2 (str "609") '2' '5' '6' '4' '6' '8' '7' '0' '0' '0'
    (by decide) (by decide) (by decide) (by decide) (by decide) (by decide) (by decide)
    (by decide) (by decide) (by decide)).2.2.1 (by decide)

end RMC
